import Mathlib

/-!
Verification of the offline-resilient synchronization engine of the
stmserver test tool (`main.py`, `api_client.py`).

Python strings are modelled as `List Char`; every transformation of the
canonicalizers, the content hasher, the cache store, the pending-submission
queue and the upload pipeline is translated into an executable Lean
function.  Regular-expression substitutions from the source are expressed
over a small backtracking matcher whose patterns transcribe the Python
patterns one constructor per construct.  Machine-level hashing (SHA-256) is
implemented over `Nat` with explicit reduction modulo `2 ^ 32`.
-/

namespace StmTool

/-- Convert a Lean string literal to the `List Char` representation used
throughout this development. -/
def sl (s : String) : List Char := s.data

/-- ASCII whitespace as recognised by Python `str.strip` / `\s` on the
ASCII range (the inputs of interest are ASCII-plus-markers). -/
def isWsChar (c : Char) : Bool :=
  c = ' ' || c = '\t' || c = '\n' || c = '\r' || c = '\x0b' || c = '\x0c'

/-- `\w` word characters on the ASCII range: letters, digits, underscore. -/
def isWordChar (c : Char) : Bool :=
  c.isAlpha || c.isDigit || c = '_'

/-- ASCII lower-casing, used for the case-insensitive (`re.IGNORECASE`)
literal matches of the source patterns. -/
def lowerAscii (c : Char) : Char :=
  if 'A' ≤ c && c ≤ 'Z' then Char.ofNat (c.toNat + 32) else c

/-- Case-insensitive (ASCII) prefix test. -/
def ciPrefixOf : List Char → List Char → Bool
  | [], _ => true
  | _ :: _, [] => false
  | p :: ps, c :: cs => (lowerAscii p = lowerAscii c) && ciPrefixOf ps cs

/-- `hasSub pat s` holds iff `pat` occurs as a contiguous substring of `s`
(Python `pat in s` / a successful `re.search` for a literal pattern). -/
def hasSub (pat : List Char) : List Char → Bool
  | [] => pat.isPrefixOf []
  | c :: rest => pat.isPrefixOf (c :: rest) || hasSub pat rest

/-- Fueled worker for `replaceAll`; consumes at least one input character
per step, so fuel `s.length` is always sufficient. -/
def replaceAllGo (pat rep : List Char) : Nat → List Char → List Char
  | _, [] => []
  | 0, s => s
  | Nat.succ fuel, c :: rest =>
    if !pat.isEmpty && pat.isPrefixOf (c :: rest) then
      rep ++ replaceAllGo pat rep fuel (List.drop (pat.length - 1) rest)
    else
      c :: replaceAllGo pat rep fuel rest

/-- Python `str.replace pat rep`: replace every non-overlapping occurrence
of `pat`, scanning left to right.  (All call sites in the source pass a
non-empty `pat`.) -/
def replaceAll (pat rep s : List Char) : List Char :=
  replaceAllGo pat rep s.length s

/-- Python `str.strip()` restricted to character set `p`: drop the maximal
run of `p`-characters from both ends. -/
def stripSet (p : Char → Bool) (s : List Char) : List Char :=
  (((s.dropWhile p).reverse.dropWhile p)).reverse

/-- Python `str.strip()` (whitespace at both ends). -/
def stripWs (s : List Char) : List Char := stripSet isWsChar s

/-- Decimal rendering of a natural number (for the `__CODE_BLOCK_i__`
placeholders built with Python f-strings). -/
def natToDecGo : Nat → Nat → List Char
  | _, 0 => []
  | 0, _ => []
  | n, Nat.succ fuel =>
    let d := Char.ofNat (n % 10 + 48)
    if n < 10 then [d] else natToDecGo (n / 10) fuel ++ [d]

def natToDec (n : Nat) : List Char :=
  if n = 0 then ['0'] else natToDecGo n (n + 1)

/-- First occurrence splitter: `splitFirstSub pat s = some (before, after)`
when `s = before ++ pat ++ after` at the leftmost occurrence of `pat`. -/
def splitFirstSub (pat : List Char) : List Char → Option (List Char × List Char)
  | [] => if pat.isPrefixOf [] then some ([], []) else none
  | c :: rest =>
    if pat.isPrefixOf (c :: rest) then
      some ([], List.drop pat.length (c :: rest))
    else
      (splitFirstSub pat rest).map (fun pr => (c :: pr.1, pr.2))

/-!
## A small backtracking regex matcher

Each Python `re` pattern used by the canonicalizers is transcribed into a
`RE` value, one constructor per regex construct.  The matcher enumerates
candidate matches in backtracking preference order (greedy alternatives
first for greedy quantifiers, the empty repetition first for lazy ones),
which is exactly the order Python's engine explores, so the head of the
returned list is the match Python reports.
-/

/-- Regex abstract syntax: literals (case-sensitive and `re.IGNORECASE`
variants), single-character classes, capturing groups, concatenation and
the three quantifiers appearing in the source patterns. -/
inductive RE where
  | eps : RE
  | lit (cs : List Char) : RE
  | litCI (cs : List Char) : RE
  | cls (p : Char → Bool) : RE
  | grp (idx : Nat) (r : RE) : RE
  | seq (r1 r2 : RE) : RE
  | star (greedy : Bool) (r : RE) : RE
  | opt (greedy : Bool) (r : RE) : RE

/-- `r1 + r2 ...` sequence of several regexes. -/
def RE.cat (rs : List RE) : RE := rs.foldr RE.seq RE.eps

/-- `r+` one or more, expressed through `star` as Python's engine does. -/
def RE.plus (greedy : Bool) (r : RE) : RE := RE.seq r (RE.star greedy r)

/-- Structural size of a pattern, used to bound backtracking depth. -/
def RE.size : RE → Nat
  | .eps => 1
  | .lit cs => cs.length + 1
  | .litCI cs => cs.length + 1
  | .cls _ => 1
  | .grp _ r => r.size + 1
  | .seq r1 r2 => r1.size + r2.size + 1
  | .star _ r => r.size + 1
  | .opt _ r => r.size + 1

/-- Captured groups of one match attempt: latest assignment first. -/
abbrev Caps := List (Nat × List Char)

/-- Look up the text of capture group `i` (Python `match.group(i)`),
`none` when the group did not participate in the match. -/
def capGet (caps : Caps) (i : Nat) : Option (List Char) :=
  (caps.find? (fun kv => kv.1 = i)).map (fun kv => kv.2)

/-- The matcher: all ways `r` can match a prefix of `s`, each as
`(consumed, rest, caps)`, in backtracking preference order.  Fuel
decreases on every recursive call; `matchFuel` below always provides
enough for the patterns and inputs of this development, and exhausted
fuel only drops candidate matches (it never invents one). -/
def mtch : RE → List Char → Caps → Nat → List (List Char × List Char × Caps)
  | _, _, _, 0 => []
  | .eps, s, caps, Nat.succ _ => [([], s, caps)]
  | .lit cs, s, caps, Nat.succ _ =>
    if cs.isPrefixOf s then [(cs, List.drop cs.length s, caps)] else []
  | .litCI cs, s, caps, Nat.succ _ =>
    if ciPrefixOf cs s then [(List.take cs.length s, List.drop cs.length s, caps)] else []
  | .cls p, s, caps, Nat.succ _ =>
    match s with
    | [] => []
    | c :: rest => if p c then [([c], rest, caps)] else []
  | .grp i r, s, caps, Nat.succ fuel =>
    (mtch r s caps fuel).map (fun t => (t.1, t.2.1, (i, t.1) :: t.2.2))
  | .seq r1 r2, s, caps, Nat.succ fuel =>
    (mtch r1 s caps fuel).flatMap (fun t1 =>
      (mtch r2 t1.2.1 t1.2.2 fuel).map (fun t2 => (t1.1 ++ t2.1, t2.2.1, t2.2.2)))
  | .opt g r, s, caps, Nat.succ fuel =>
    let hit := mtch r s caps fuel
    let miss := [(([] : List Char), s, caps)]
    if g then hit ++ miss else miss ++ hit
  | .star g r, s, caps, Nat.succ fuel =>
    let iter :=
      ((mtch r s caps fuel).filter (fun t => !t.1.isEmpty)).flatMap (fun t1 =>
        (mtch (.star g r) t1.2.1 t1.2.2 fuel).map
          (fun t2 => (t1.1 ++ t2.1, t2.2.1, t2.2.2)))
    if g then iter ++ [([], s, caps)] else ([], s, caps) :: iter

/-- Ample fuel: recursion depth is bounded by the pattern size per
position plus one level per quantifier iteration, each of which consumes
at least one character. -/
def matchFuel (r : RE) (s : List Char) : Nat :=
  (r.size + 2) * (s.length + 2)

/-- Leftmost search (Python `re.search`): returns
`(before, matched, rest, caps)` for the first position where `r`
matches, taking the engine's preferred match there. -/
def searchGo (r : RE) (fuel : Nat) :
    List Char → Option (List Char × List Char × List Char × Caps)
  | [] =>
    match (mtch r [] [] fuel).head? with
    | some t => some ([], t.1, t.2.1, t.2.2)
    | none => none
  | c :: rest =>
    match (mtch r (c :: rest) [] fuel).head? with
    | some t => some ([], t.1, t.2.1, t.2.2)
    | none =>
      (searchGo r fuel rest).map (fun q => (c :: q.1, q.2.1, q.2.2.1, q.2.2.2))

def reSearch (r : RE) (s : List Char) :
    Option (List Char × List Char × List Char × Caps) :=
  searchGo r (matchFuel r s) s

/-- Boolean `re.search` (used only as a truthiness test in the source). -/
def reTest (r : RE) (s : List Char) : Bool := (reSearch r s).isSome

/-- Global stateful substitution (Python `re.sub` with a replacement
function; the state threads the `code_blocks` accumulator of the source).
The replacement receives the captures and the whole matched text.  All
patterns substituted in the source match at least one character, so each
round consumes input and fuel `s.length + 1` suffices. -/
def reSubStGo (r : RE) (repl : Caps → List Char → σ → List Char × σ) :
    Nat → List Char → σ → List Char × σ
  | 0, s, st => (s, st)
  | Nat.succ fuel, s, st =>
    match reSearch r s with
    | none => (s, st)
    | some (pre, m, rest, caps) =>
      if m.isEmpty then
        -- none of the transcribed patterns can match the empty string;
        -- defensively leave the input unchanged in that impossible case
        (s, st)
      else
        let (rep, st') := repl caps m st
        let (tailOut, st'') := reSubStGo r repl fuel rest st'
        (pre ++ rep ++ tailOut, st'')

def reSubSt (r : RE) (repl : Caps → List Char → σ → List Char × σ)
    (s : List Char) (st : σ) : List Char × σ :=
  reSubStGo r repl (s.length + 1) s st

/-- Pure global substitution with a replacement function of the captures
and matched text. -/
def reSubF (r : RE) (repl : Caps → List Char → List Char) (s : List Char) :
    List Char :=
  (reSubSt r (fun caps m _ => (repl caps m, ())) s ()).1

/-- Pure global substitution with a constant replacement string. -/
def reSub (r : RE) (rep s : List Char) : List Char :=
  reSubF r (fun _ _ => rep) s

/-- `re.finditer`, keeping each match's captures in order. -/
def reFindAllGo (r : RE) : Nat → List Char → List Caps
  | 0, _ => []
  | Nat.succ fuel, s =>
    match reSearch r s with
    | none => []
    | some (_, m, rest, caps) =>
      if m.isEmpty then [] else caps :: reFindAllGo r fuel rest

def reFindAll (r : RE) (s : List Char) : List Caps :=
  reFindAllGo r (s.length + 1) s

/-!
## Python `html` library primitives

`html.escape` is a fixed chain of replacements.  `html.unescape` is the
CPython algorithm (maximal run of entity-name characters, optional
semicolon, longest-known-prefix lookup); the entity table is restricted
to the entities reachable from this code base's rich-text round trip.
-/

/-- `html.escape(s, quote=True)`: the exact replacement chain of CPython. -/
def escapeHtml (s : List Char) : List Char :=
  let s := replaceAll (sl "&") (sl "&amp;") s
  let s := replaceAll (sl "<") (sl "&lt;") s
  let s := replaceAll (sl ">") (sl "&gt;") s
  let s := replaceAll (sl "\"") (sl "&quot;") s
  replaceAll (sl "\x27") (sl "&#x27;") s

/-- Characters that terminate an entity-name run in CPython's
`html.unescape` pattern `[^\t\n\f <&#;]{1,32}`. -/
def entityBreak (c : Char) : Bool :=
  c = '\t' || c = '\n' || c = '\x0c' || c = ' ' || c = '<' || c = '&' ||
    c = '#' || c = ';'

/-- Restriction of CPython's `html5` entity table to the entities produced
by Qt rich text and by the canonicalizers themselves (`html.escape`
output).  Keys with and without the trailing semicolon follow the
`html5` dictionary; `apos` has no semicolon-free legacy form there. -/
def entityTable : List (List Char × Char) :=
  [(sl "amp;", '&'), (sl "amp", '&'), (sl "lt;", '<'), (sl "lt", '<'),
   (sl "gt;", '>'), (sl "gt", '>'), (sl "quot;", '"'), (sl "quot", '"'),
   (sl "apos;", '\x27'), (sl "nbsp;", '\xA0'), (sl "nbsp", '\xA0')]

/-- CPython's longest-known-prefix lookup: try the full candidate, then
each shorter prefix down to length 2. -/
def entityAt : Nat → List Char → Option (Char × Nat)
  | 0, _ => none
  | Nat.succ k, cand =>
    if Nat.succ k < 2 then none
    else
      match entityTable.lookup (cand.take (Nat.succ k)) with
      | some v => some (v, Nat.succ k)
      | none => entityAt k cand

/-- Hexadecimal digit value. -/
def hexVal (c : Char) : Nat :=
  if '0' ≤ c && c ≤ '9' then c.toNat - 48
  else if 'a' ≤ c && c ≤ 'f' then c.toNat - 87
  else if 'A' ≤ c && c ≤ 'F' then c.toNat - 55
  else 0

def isHexDigit (c : Char) : Bool :=
  ('0' ≤ c && c ≤ '9') || ('a' ≤ c && c ≤ 'f') || ('A' ≤ c && c ≤ 'F')

/-- Numeric character reference after the `#`: `[0-9]+;?` or
`[xX][0-9a-fA-F]+;?`, returning the decoded character and consumed
length.  (CPython's windows-1252 remapping of `0x80`–`0x9f` and its
`�` fallback are not modelled; no verified claim feeds numeric
references.) -/
def parseNumEntity (s : List Char) : Option (Char × Nat) :=
  match s with
  | c :: rest =>
    if c = 'x' || c = 'X' then
      let digits := rest.takeWhile isHexDigit
      if digits.isEmpty then none
      else
        let v := digits.foldl (fun a d => a * 16 + hexVal d) 0
        let semi : Nat := if (rest.drop digits.length).head? = some ';' then 1 else 0
        some (Char.ofNat v, 1 + digits.length + semi)
    else
      let digits := s.takeWhile Char.isDigit
      if digits.isEmpty then none
      else
        let v := digits.foldl (fun a d => a * 10 + (d.toNat - 48)) 0
        let semi : Nat := if (s.drop digits.length).head? = some ';' then 1 else 0
        some (Char.ofNat v, digits.length + semi)
  | [] => none

/-- Fueled worker for `htmlUnescape`; consumes at least one character per
step. -/
def htmlUnescapeGo : Nat → List Char → List Char
  | 0, s => s
  | Nat.succ _, [] => []
  | Nat.succ fuel, c :: rest =>
    if c = '&' then
      match rest.head? with
      | some '#' =>
        match parseNumEntity (rest.drop 1) with
        | some (v, len) => v :: htmlUnescapeGo fuel (rest.drop (1 + len))
        | none => '&' :: htmlUnescapeGo fuel rest
      | _ =>
        let cand0 := (rest.takeWhile (fun c2 => !entityBreak c2)).take 32
        if cand0.isEmpty then '&' :: htmlUnescapeGo fuel rest
        else
          let hasSemi := (rest.drop cand0.length).head? = some ';'
          let cand := cand0 ++ (if hasSemi then [';'] else [])
          match entityAt cand.length cand with
          | some (v, len) =>
            (v :: cand.drop len) ++ htmlUnescapeGo fuel (rest.drop cand.length)
          | none => ('&' :: cand) ++ htmlUnescapeGo fuel (rest.drop cand.length)
    else c :: htmlUnescapeGo fuel rest

/-- CPython `html.unescape` over the modelled entity table. -/
def htmlUnescape (s : List Char) : List Char :=
  htmlUnescapeGo (s.length + 1) s

/-!
## The transcribed source patterns

Each definition names the Python regex it transcribes; `litCI` marks the
spans covered by `re.IGNORECASE` at the call site.
-/

def notGt (c : Char) : Bool := !(c = '>')
def isQuoteCh (c : Char) : Bool := c = '"' || c = '\x27'
def notQuoteCh (c : Char) : Bool := !(c = '"' || c = '\x27')
def dataUriCh (c : Char) : Bool :=
  !(c = '"' || c = '\x27' || c = '>' || isWsChar c)
def isCrLf (c : Char) : Bool := c = '\r' || c = '\n'
def anyCh (_ : Char) : Bool := true

/-- `<br\s*/?>` (IGNORECASE). -/
def reBrTag : RE :=
  .cat [.litCI (sl "<br"), .star true (.cls isWsChar), .opt true (.lit (sl "/")),
        .lit (sl ">")]

/-- `</p>` (IGNORECASE). -/
def reEndP : RE := .litCI (sl "</p>")

/-- `</div>` (IGNORECASE). -/
def reEndDiv : RE := .litCI (sl "</div>")

/-- `</p>\s*<p[^>]*>` (IGNORECASE). -/
def rePP : RE :=
  .cat [.litCI (sl "</p>"), .star true (.cls isWsChar), .litCI (sl "<p"),
        .star true (.cls notGt), .lit (sl ">")]

/-- `</div>\s*<div[^>]*>` (IGNORECASE). -/
def reDD : RE :=
  .cat [.litCI (sl "</div>"), .star true (.cls isWsChar), .litCI (sl "<div"),
        .star true (.cls notGt), .lit (sl ">")]

/-- `>\s*<` (case-sensitive). -/
def reGtLt : RE :=
  .cat [.lit (sl ">"), .star true (.cls isWsChar), .lit (sl "<")]

/-- `<[^>]+>` (case-sensitive). -/
def reTag : RE := .cat [.lit (sl "<"), .plus true (.cls notGt), .lit (sl ">")]

/-- `!\[[^\]]*\]\([^)]+\)` (markdown image detection). -/
def reMdImage : RE :=
  .cat [.lit (sl "!["), .star true (.cls (fun c => !(c = ']'))), .lit (sl "]("),
        .plus true (.cls (fun c => !(c = ')'))), .lit (sl ")")]

/-- `<a\s+[^>]*href=["\x27]?(data:image/[^"\x27>\s]+)["\x27]?[^>]*>`
(IGNORECASE). -/
def reAnchorImg : RE :=
  .cat [.litCI (sl "<a"), .plus true (.cls isWsChar), .star true (.cls notGt),
        .litCI (sl "href="), .opt true (.cls isQuoteCh),
        .grp 1 (.cat [.litCI (sl "data:image/"), .plus true (.cls dataUriCh)]),
        .opt true (.cls isQuoteCh), .star true (.cls notGt), .lit (sl ">")]

/-- `<img\s+[^>]*src=["\x27]?(data:image/[^"\x27>\s]+)["\x27]?[^>]*>`
(IGNORECASE). -/
def reImgSrc : RE :=
  .cat [.litCI (sl "<img"), .plus true (.cls isWsChar), .star true (.cls notGt),
        .litCI (sl "src="), .opt true (.cls isQuoteCh),
        .grp 1 (.cat [.litCI (sl "data:image/"), .plus true (.cls dataUriCh)]),
        .opt true (.cls isQuoteCh), .star true (.cls notGt), .lit (sl ">")]

/-- `⟦CODE⟧([\s\S]*?)⟦/CODE⟧` (the Qt-surviving code sentinels). -/
def reCodeMarker : RE :=
  .cat [.lit (sl "⟦CODE⟧"), .grp 1 (.star false (.cls anyCh)),
        .lit (sl "⟦/CODE⟧")]

/-- `<pre[^>]*>\s*<code[^>]*>([\s\S]*?)</code>\s*</pre>` (IGNORECASE). -/
def rePreCode : RE :=
  .cat [.litCI (sl "<pre"), .star true (.cls notGt), .lit (sl ">"),
        .star true (.cls isWsChar), .litCI (sl "<code"), .star true (.cls notGt),
        .lit (sl ">"), .grp 1 (.star false (.cls anyCh)), .litCI (sl "</code>"),
        .star true (.cls isWsChar), .litCI (sl "</pre>")]

/-- `<pre([^>]*)>\s*<code[^>]*>([\s\S]*?)</code>\s*</pre>` (IGNORECASE),
the api_client variant that captures the `<pre>` attributes. -/
def rePreCodeApi : RE :=
  .cat [.litCI (sl "<pre"), .grp 1 (.star true (.cls notGt)), .lit (sl ">"),
        .star true (.cls isWsChar), .litCI (sl "<code"), .star true (.cls notGt),
        .lit (sl ">"), .grp 2 (.star false (.cls anyCh)), .litCI (sl "</code>"),
        .star true (.cls isWsChar), .litCI (sl "</pre>")]

/-- `data-language=["\x27](\w+)["\x27]` (case-sensitive). -/
def reDataLang : RE :=
  .cat [.lit (sl "data-language="), .cls isQuoteCh,
        .grp 1 (.plus true (.cls isWordChar)), .cls isQuoteCh]

/-- ```` ```(\w*)[\r\n]*([\s\S]*?)``` ```` (markdown code fences). -/
def reFence : RE :=
  .cat [.lit (sl "```"), .grp 1 (.star true (.cls isWordChar)),
        .star true (.cls isCrLf), .grp 2 (.star false (.cls anyCh)),
        .lit (sl "```")]

/-- `\n{3,}`, written as three newlines followed by greedily many more. -/
def reN3 : RE := .cat [.lit (sl "\n\n\n"), .star true (.cls (fun c => c = '\n'))]

/-- The anchor-plus-img thumbnail pattern of
`convert_old_thumbnail_format` (IGNORECASE|DOTALL). -/
def reThumb : RE :=
  .cat [.litCI (sl "<a"), .plus true (.cls isWsChar), .star true (.cls notGt),
        .litCI (sl "href="), .opt true (.cls isQuoteCh),
        .grp 1 (.cat [.litCI (sl "data:image/"), .plus true (.cls dataUriCh)]),
        .opt true (.cls isQuoteCh), .star true (.cls notGt), .lit (sl ">"),
        .star true (.cls isWsChar), .litCI (sl "<img"),
        .plus true (.cls isWsChar), .grp 2 (.star false (.cls notGt)),
        .litCI (sl "src="), .opt true (.cls isQuoteCh),
        .grp 3 (.cat [.litCI (sl "data:image/"), .plus true (.cls dataUriCh)]),
        .opt true (.cls isQuoteCh), .grp 4 (.star true (.cls notGt)),
        .opt true (.lit (sl "/")), .lit (sl ">"), .star true (.cls isWsChar),
        .litCI (sl "</a>")]

/-- `\s*style=["\x27][^"\x27]*["\x27]` (IGNORECASE). -/
def reStyleAttr : RE :=
  .cat [.star true (.cls isWsChar), .litCI (sl "style="), .cls isQuoteCh,
        .star true (.cls notQuoteCh), .cls isQuoteCh]

/-- `\s*width=["\x27]?\d+["\x27]?` (IGNORECASE). -/
def reWidthAttr : RE :=
  .cat [.star true (.cls isWsChar), .litCI (sl "width="),
        .opt true (.cls isQuoteCh), .plus true (.cls Char.isDigit),
        .opt true (.cls isQuoteCh)]

/-- `\s*height=["\x27]?\d+["\x27]?` (IGNORECASE). -/
def reHeightAttr : RE :=
  .cat [.star true (.cls isWsChar), .litCI (sl "height="),
        .opt true (.cls isQuoteCh), .plus true (.cls Char.isDigit),
        .opt true (.cls isQuoteCh)]

/-!
## The canonicalizers

`clean_notes` (main.py, hash side) and `clean_notes_for_api`
(api_client.py, submission side), translated step for step in source
order.
-/

/-- `replace_thumbnail` of `convert_old_thumbnail_format` (main.py). -/
def thumbRepl (caps : Caps) (whole : List Char) : List Char :=
  let full := (capGet caps 1).getD []
  let attrsBefore := (capGet caps 2).getD []
  let thumb := (capGet caps 3).getD []
  let attrsAfter := (capGet caps 4).getD []
  if full = thumb then whole
  else
    let attrs := attrsBefore ++ attrsAfter
    let attrs := reSub reStyleAttr [] attrs
    let attrs := reSub reWidthAttr [] attrs
    let attrs := reSub reHeightAttr [] attrs
    let attrs := stripWs attrs
    let newImg :=
      sl "<img src=\"" ++ full ++
        sl "\" width=\"125\" height=\"100\" title=\"Click to view full size\"" ++
        (if attrs.isEmpty then [] else ' ' :: attrs) ++ sl " />"
    sl "<a href=\"" ++ full ++ sl "\">" ++ newImg ++ sl "</a>"

/-- `convert_old_thumbnail_format` (main.py). -/
def convert_old_thumbnail_format (html : List Char) : List Char :=
  if html.isEmpty then html else reSubF reThumb thumbRepl html

/-- The two `finditer` loops that collect embedded data-URI images in
order of first appearance, de-duplicated by exact payload. -/
def extractImages (notes : List Char) : List (List Char) :=
  let found :=
    (reFindAll reAnchorImg notes).filterMap (fun caps => capGet caps 1) ++
      (reFindAll reImgSrc notes).filterMap (fun caps => capGet caps 1)
  found.foldl (fun acc img => if img ∈ acc then acc else acc ++ [img]) []

/-- The shared inner cleanup of a code block's HTML: breaks to newlines,
inter-tag spacing, tag stripping, entity decoding. -/
def cleanCodeHtml (codeHtml : List Char) : List Char :=
  let s := reSub reBrTag (sl "\n") codeHtml
  let s := reSub rePP (sl "\n") s
  let s := reSub reDD (sl "\n") s
  let s := reSub reGtLt (sl "> <") s
  let s := reSub reTag [] s
  htmlUnescape s

/-- Placeholder text `__CODE_BLOCK_i__`. -/
def codePlaceholder (i : Nat) : List Char :=
  sl "__CODE_BLOCK_" ++ natToDec i ++ sl "__"

/-- `extract_marked_code_block` / `clean_explicit_code_block` of main.py:
clean, re-escape, wrap in `<pre><code>`, stash, leave a placeholder. -/
def markedReplMain (caps : Caps) (_m : List Char) (blocks : List (List Char)) :
    List Char × List (List Char) :=
  let codeText := escapeHtml (cleanCodeHtml ((capGet caps 1).getD []))
  let block := sl "<pre><code>" ++ codeText ++ sl "</code></pre>"
  (codePlaceholder blocks.length, blocks ++ [block])

/-- `extract_marked_code_block` of api_client.py: clean (no re-escape),
wrap in a markdown fence, stash, leave a placeholder. -/
def markedReplApi (caps : Caps) (_m : List Char) (blocks : List (List Char)) :
    List Char × List (List Char) :=
  let codeText := cleanCodeHtml ((capGet caps 1).getD [])
  let block := sl "```\n" ++ codeText ++ sl "\n```"
  (codePlaceholder blocks.length, blocks ++ [block])

/-- `clean_explicit_code_block` of api_client.py: also recovers the
language from the `<pre>` attributes. -/
def explicitReplApi (caps : Caps) (_m : List Char) (blocks : List (List Char)) :
    List Char × List (List Char) :=
  let preTag := (capGet caps 1).getD []
  let codeText := cleanCodeHtml ((capGet caps 2).getD [])
  let lang :=
    match reSearch reDataLang preTag with
    | some q => (capGet q.2.2.2 1).getD []
    | none => []
  let block := sl "```" ++ lang ++ sl "\n" ++ codeText ++ sl "\n```"
  (codePlaceholder blocks.length, blocks ++ [block])

/-- `re.sub(r'\bimage\b\s*', '', text, flags=re.IGNORECASE)`: dedicated
scanner carrying the previous character for the word-boundary tests
(`\w` on the ASCII range). -/
def removeImageWordGo : Nat → Option Char → List Char → List Char
  | 0, _, s => s
  | Nat.succ fuel, prev, s =>
    match s with
    | [] => []
    | c :: rest =>
      let boundaryBefore :=
        match prev with
        | none => true
        | some p => !isWordChar p
      if boundaryBefore && ciPrefixOf (sl "image") s then
        let after := List.drop 5 s
        let boundaryAfter :=
          match after.head? with
          | none => true
          | some a => !isWordChar a
        if boundaryAfter then
          let wsRun := after.takeWhile isWsChar
          let span := List.take (5 + wsRun.length) s
          removeImageWordGo fuel span.getLast? (after.drop wsRun.length)
        else c :: removeImageWordGo fuel (some c) rest
      else c :: removeImageWordGo fuel (some c) rest

def removeImageWord (s : List Char) : List Char :=
  removeImageWordGo (s.length + 1) none s

/-- Restore the stashed code blocks into the text, wrapping each block
as the source does (`\n…\n` on the hash side, `\n\n…\n\n` on the
submission side). -/
def restoreBlocks (wrap : List Char → List Char) (blocks : List (List Char))
    (text : List Char) : List Char :=
  (blocks.enum).foldl
    (fun t ib => replaceAll (codePlaceholder ib.1) (wrap ib.2) t) text

/-- `replace_code_block` of `convert_markdown_code_blocks_to_html`. -/
def fenceRepl (caps : Caps) (whole : List Char) : List Char :=
  let lang := (capGet caps 1).getD []
  let code := (capGet caps 2).getD []
  if (stripWs code).isEmpty then whole
  else
    let code := stripSet isCrLf code
    let code := escapeHtml code
    let langAttr :=
      if lang.isEmpty then []
      else sl " data-language=\"" ++ escapeHtml lang ++ sl "\""
    sl "<pre class=\"code-block\"" ++ langAttr ++ sl "><code>" ++ code ++
      sl "</code></pre>"

/-- `convert_markdown_code_blocks_to_html` (identical in both files). -/
def convert_markdown_code_blocks_to_html (text : List Char) : List Char :=
  reSubF reFence fenceRepl text

/-- `re.search(r'```[\s\S]*?```')` succeeds exactly when a second fence
occurs after the first one. -/
def hasMdCodeBlocks (s : List Char) : Bool :=
  match splitFirstSub (sl "```") s with
  | none => false
  | some pr => hasSub (sl "```") pr.2

def hasMdImages (s : List Char) : Bool := reTest reMdImage s

def imageMarker1 : List Char := sl "[image:data:image/"
def imageMarker2 : List Char := sl "\x7b\x7bIMAGE:data:image/"

def hasImageMarkers (s : List Char) : Bool :=
  hasSub imageMarker1 s || hasSub imageMarker2 s

/-- The Qt CSS boilerplate `p, li { white-space: pre-wrap; }` stripped by
both canonicalizers. -/
def qtCssText : List Char := sl "p, li \x7b white-space: pre-wrap; \x7d"

/-- `clean_notes` (main.py lines 629–782): the hash-side canonicalizer. -/
def clean_notes (notes : List Char) : List Char :=
  if notes.isEmpty then []
  else
    let mdCode := hasMdCodeBlocks notes
    let mdImg := hasMdImages notes
    let imgMarkers := hasImageMarkers notes
    if mdCode || mdImg || imgMarkers then
      let text := replaceAll qtCssText [] notes
      let text := if mdCode then convert_markdown_code_blocks_to_html text else text
      stripWs text
    else
      let notes := convert_old_thumbnail_format notes
      let images := extractImages notes
      let st1 := reSubSt reCodeMarker markedReplMain notes []
      let st2 := reSubSt rePreCode markedReplMain st1.1 st1.2
      let notes := reSub reBrTag (sl "\n") st2.1
      let notes := reSub reEndP (sl "\n") notes
      let notes := reSub reEndDiv (sl "\n") notes
      let text := reSub reTag [] notes
      let text := htmlUnescape text
      let text := replaceAll qtCssText [] text
      let text := removeImageWord text
      let text := stripWs text
      let text := restoreBlocks (fun b => '\n' :: (b ++ ['\n'])) st2.2 text
      let text := reSub reN3 (sl "\n\n") text
      let text := stripWs text
      if images.isEmpty then text
      else
        stripWs (images.foldl
          (fun t u => t ++ sl "\n\n\x7b\x7bIMAGE:" ++ u ++ sl "\x7d\x7d") text)

/-- `clean_notes_for_api` (api_client.py lines 126–270): the
submission-side canonicalizer. -/
def clean_notes_for_api (notes : List Char) : List Char :=
  if notes.isEmpty then []
  else
    let mdCode := hasMdCodeBlocks notes
    let mdImg := hasMdImages notes
    let imgMarkers := hasImageMarkers notes
    if mdCode || mdImg || imgMarkers then
      stripWs (replaceAll qtCssText [] notes)
    else
      let images := extractImages notes
      let st1 := reSubSt reCodeMarker markedReplApi notes []
      let st2 := reSubSt rePreCodeApi explicitReplApi st1.1 st1.2
      let text := reSub reTag [] st2.1
      let text := htmlUnescape text
      let text := replaceAll qtCssText [] text
      let text := removeImageWord text
      let text := stripWs text
      let text := restoreBlocks (fun b => sl "\n\n" ++ (b ++ sl "\n\n")) st2.2 text
      let text := reSub reN3 (sl "\n\n") text
      let text := stripWs text
      if images.isEmpty then text
      else
        stripWs (images.foldl
          (fun t u => t ++ sl "\n\n\x7b\x7bIMAGE:" ++ u ++ sl "\x7d\x7d") text)

/-!
## The content hasher

`compute_version_hash` (main.py lines 785–819): canonicalize the notes,
serialize `\x7b'results': …, 'logs': …\x7d` with
`json.dumps(sort_keys=True, ensure_ascii=True, separators=(',', ':'))`
and return the SHA-256 hex digest of the UTF-8 bytes.
-/

/-- UTF-8 encoding of one character. -/
def utf8Char (c : Char) : List Nat :=
  let n := c.toNat
  if n < 0x80 then [n]
  else if n < 0x800 then [0xc0 ||| (n >>> 6), 0x80 ||| (n &&& 0x3f)]
  else if n < 0x10000 then
    [0xe0 ||| (n >>> 12), 0x80 ||| ((n >>> 6) &&& 0x3f), 0x80 ||| (n &&& 0x3f)]
  else
    [0xf0 ||| (n >>> 18), 0x80 ||| ((n >>> 12) &&& 0x3f),
     0x80 ||| ((n >>> 6) &&& 0x3f), 0x80 ||| (n &&& 0x3f)]

def utf8Encode (s : List Char) : List Nat := s.flatMap utf8Char

/-- SHA-256 over byte lists, all words as `Nat` reduced mod `2 ^ 32`. -/
def rotr32 (n x : Nat) : Nat :=
  ((x >>> n) ||| (x <<< (32 - n))) % 2 ^ 32

def bigSigma0 (x : Nat) : Nat := rotr32 2 x ^^^ rotr32 13 x ^^^ rotr32 22 x
def bigSigma1 (x : Nat) : Nat := rotr32 6 x ^^^ rotr32 11 x ^^^ rotr32 25 x
def smallSigma0 (x : Nat) : Nat := rotr32 7 x ^^^ rotr32 18 x ^^^ (x >>> 3)
def smallSigma1 (x : Nat) : Nat := rotr32 17 x ^^^ rotr32 19 x ^^^ (x >>> 10)

def chFn (x y z : Nat) : Nat := (x &&& y) ^^^ ((x ^^^ (2 ^ 32 - 1)) &&& z)
def majFn (x y z : Nat) : Nat := (x &&& y) ^^^ (x &&& z) ^^^ (y &&& z)

/-- The 64 round constants (written in decimal). -/
def shaK : List Nat :=
  [1116352408, 1899447441, 3049323471, 3921009573, 961987163, 1508970993,
   2453635748, 2870763221, 3624381080, 310598401, 607225278, 1426881987,
   1925078388, 2162078206, 2614888103, 3248222580, 3835390401, 4022224774,
   264347078, 604807628, 770255983, 1249150122, 1555081692, 1996064986,
   2554220882, 2821834349, 2952996808, 3210313671, 3336571891, 3584528711,
   113926993, 338241895, 666307205, 773529912, 1294757372, 1396182291,
   1695183700, 1986661051, 2177026350, 2456956037, 2730485921, 2820302411,
   3259730800, 3345764771, 3516065817, 3600352804, 4094571909, 275423344,
   430227734, 506948616, 659060556, 883997877, 958139571, 1322822218,
   1537002063, 1747873779, 1955562222, 2024104815, 2227730452, 2361852424,
   2428436474, 2756734187, 3204031479, 3329325298]

/-- The initial state words (written in decimal). -/
def shaH0 : List Nat :=
  [1779033703, 3144134277, 1013904242, 2773480762, 1359893119, 2600822924,
   528734635, 1541459225]

/-- Big-endian byte rendering on a fixed byte count. -/
def natToBytesBE : Nat → Nat → List Nat
  | 0, _ => []
  | Nat.succ k, n => natToBytesBE k (n >>> 8) ++ [n % 256]

/-- SHA-256 message padding. -/
def sha256Pad (msg : List Nat) : List Nat :=
  let L := msg.length
  let k := (120 - ((L + 1) % 64)) % 64
  msg ++ 0x80 :: (List.replicate k 0 ++ natToBytesBE 8 ((L * 8) % 2 ^ 64))

def wordsOfBytesGo : Nat → List Nat → List Nat
  | 0, _ => []
  | _, [] => []
  | Nat.succ fuel, b0 :: rest =>
    match rest with
    | b1 :: b2 :: b3 :: rest2 =>
      ((b0 <<< 24) ||| (b1 <<< 16) ||| (b2 <<< 8) ||| b3) ::
        wordsOfBytesGo fuel rest2
    | _ => []

def chunks64Go : Nat → List Nat → List (List Nat)
  | 0, _ => []
  | _, [] => []
  | Nat.succ fuel, s => s.take 64 :: chunks64Go fuel (s.drop 64)

/-- Message-schedule extension: 48 further words. -/
def extendW : Nat → List Nat → List Nat
  | 0, w => w
  | Nat.succ fuel, w =>
    let n := w.length
    let x2 := w.getD (n - 2) 0
    let x7 := w.getD (n - 7) 0
    let x15 := w.getD (n - 15) 0
    let x16 := w.getD (n - 16) 0
    extendW fuel (w ++ [(smallSigma1 x2 + x7 + smallSigma0 x15 + x16) % 2 ^ 32])

def compressRound (st : List Nat) (kw : Nat × Nat) : List Nat :=
  let a := st.getD 0 0
  let b := st.getD 1 0
  let c := st.getD 2 0
  let d := st.getD 3 0
  let e := st.getD 4 0
  let f := st.getD 5 0
  let g := st.getD 6 0
  let h := st.getD 7 0
  let t1 := (h + bigSigma1 e + chFn e f g + kw.1 + kw.2) % 2 ^ 32
  let t2 := (bigSigma0 a + majFn a b c) % 2 ^ 32
  [(t1 + t2) % 2 ^ 32, a, b, c, (d + t1) % 2 ^ 32, e, f, g]

def compressBlock (st : List Nat) (block : List Nat) : List Nat :=
  let ws := extendW 48 (wordsOfBytesGo (block.length + 1) block)
  let out := (shaK.zip ws).foldl compressRound st
  (st.zip out).map (fun p => (p.1 + p.2) % 2 ^ 32)

def sha256Words (msg : List Nat) : List Nat :=
  let padded := sha256Pad msg
  (chunks64Go padded.length padded).foldl compressBlock shaH0

def hexNibble (n : Nat) : Char :=
  if n < 10 then Char.ofNat (48 + n) else Char.ofNat (87 + n)

def natToHex8 (w : Nat) : List Char :=
  [28, 24, 20, 16, 12, 8, 4, 0].map (fun s => hexNibble ((w >>> s) % 16))

/-- `hashlib.sha256(bytes).hexdigest()`. -/
def sha256Hex (msg : List Nat) : List Char :=
  (sha256Words msg).flatMap natToHex8

/-- JSON documents as serialized by `json.dumps`; numbers are restricted
to integers (the attached-log metadata carries only strings and
integers). -/
inductive Json where
  | null : Json
  | bool (b : Bool) : Json
  | num (n : Int) : Json
  | str (s : List Char) : Json
  | arr (xs : List Json) : Json
  | obj (kvs : List (List Char × Json)) : Json

mutual

/-- Structural size of a document, the fuel bound for the serializer. -/
def jsonSize : Json → Nat
  | .null => 1
  | .bool _ => 1
  | .num _ => 1
  | .str _ => 1
  | .arr xs => 1 + jsonSizeList xs
  | .obj kvs => 1 + jsonSizeKVs kvs

def jsonSizeList : List Json → Nat
  | [] => 0
  | x :: rest => 1 + jsonSize x + jsonSizeList rest

def jsonSizeKVs : List (List Char × Json) → Nat
  | [] => 0
  | kv :: rest => 1 + jsonSize kv.2 + jsonSizeKVs rest

end

def hex4 (n : Nat) : List Char :=
  [12, 8, 4, 0].map (fun s => hexNibble ((n >>> s) % 16))

/-- One character of a JSON string under `ensure_ascii=True`: the
shorthand escapes, printable ASCII verbatim, `\uXXXX` (with surrogate
pairs) for the rest. -/
def jsonEscapeChar (c : Char) : List Char :=
  if c = '"' then sl "\\\""
  else if c = '\\' then sl "\\\\"
  else if c = '\n' then sl "\\n"
  else if c = '\r' then sl "\\r"
  else if c = '\t' then sl "\\t"
  else if c = '\x08' then sl "\\b"
  else if c = '\x0c' then sl "\\f"
  else if 0x20 ≤ c.toNat && c.toNat ≤ 0x7e then [c]
  else if c.toNat < 0x10000 then sl "\\u" ++ hex4 c.toNat
  else
    let v := c.toNat - 0x10000
    sl "\\u" ++ hex4 (0xd800 + (v >>> 10)) ++ sl "\\u" ++ hex4 (0xdc00 + (v &&& 0x3ff))

def jsonStringLit (s : List Char) : List Char :=
  '"' :: (s.flatMap jsonEscapeChar ++ ['"'])

def intToDec (i : Int) : List Char :=
  if i < 0 then '-' :: natToDec i.natAbs else natToDec i.natAbs

/-- Byte-wise (code-point) string order used by Python when sorting
dictionary keys. -/
def keyLeB : List Char → List Char → Bool
  | [], _ => true
  | _ :: _, [] => false
  | a :: as1, b :: bs1 =>
    if a < b then true else if b < a then false else keyLeB as1 bs1

def insertKV (p : List Char × Json) :
    List (List Char × Json) → List (List Char × Json)
  | [] => [p]
  | q :: rest => if keyLeB p.1 q.1 then p :: q :: rest else q :: insertKV p rest

/-- `sort_keys=True`: insertion sort by key. -/
def sortKVs : List (List Char × Json) → List (List Char × Json)
  | [] => []
  | p :: rest => insertKV p (sortKVs rest)

/-- Key order on object entries, as a relation (for sortedness facts). -/
def KVle (p q : List Char × Json) : Prop := keyLeB p.1 q.1 = true

def joinComma : List (List Char) → List Char
  | [] => []
  | [x] => x
  | x :: y :: rest => x ++ ',' :: joinComma (y :: rest)

/-- Fueled serializer; `sizeOf` of the document always suffices. -/
def jsonDumpsF : Nat → Json → List Char
  | 0, _ => []
  | Nat.succ fuel, j =>
    match j with
    | .null => sl "null"
    | .bool true => sl "true"
    | .bool false => sl "false"
    | .num i => intToDec i
    | .str s => jsonStringLit s
    | .arr xs => '[' :: (joinComma (xs.map (jsonDumpsF fuel)) ++ [']'])
    | .obj kvs =>
      '\x7b' :: (joinComma ((sortKVs kvs).map
        (fun kv => jsonStringLit kv.1 ++ ':' :: jsonDumpsF fuel kv.2)) ++ ['\x7d'])

/-- `json.dumps(·, sort_keys=True, ensure_ascii=True,
separators=(',', ':'))`. -/
def jsonDumps (j : Json) : List Char := jsonDumpsF (jsonSize j) j

/-- One test's result: the `status` and `notes` fields of the per-test
dictionary (absent keys read as `''` by the source). -/
structure TestEntry where
  status : List Char
  notes : List Char
deriving DecidableEq, Repr

/-- `compute_version_hash(results_data, attached_logs)` of main.py:
clean every note with `clean_notes`, serialize deterministically, hash. -/
def compute_version_hash (results : List (List Char × TestEntry))
    (logs : List Json) : List Char :=
  let cleaned := results.map (fun kv =>
    (kv.1, Json.obj [(sl "status", .str kv.2.status),
                     (sl "notes", .str (clean_notes kv.2.notes))]))
  let dataToHash := Json.obj [(sl "results", .obj cleaned), (sl "logs", .arr logs)]
  sha256Hex (utf8Encode (jsonDumps dataToHash))

/-- Written from the specification (§4.2), for comparison with
`compute_version_hash`: canonicalize every note field, keeping the test
key and the status. -/
def specCanonicalResults :
    List (List Char × TestEntry) → List (List Char × Json)
  | [] => []
  | (k, t) :: rest =>
    (k, Json.obj [(sl "status", .str t.status),
                  (sl "notes", .str (clean_notes t.notes))]) ::
      specCanonicalResults rest

/-- Written from the specification (§4.2): a 256-bit digest over the
UTF-8 bytes of the deterministic serialization of
`\x7bresults: \x7btest_key: \x7bstatus, canonicalized_notes\x7d\x7d,
logs: attached_logs\x7d` with lexicographically sorted map keys and no
whitespace after separators (the keys are listed here already in their
sorted order). -/
def specVersionHash (results : List (List Char × TestEntry))
    (logs : List Json) : List Char :=
  sha256Hex (utf8Encode (jsonDumps
    (Json.obj [(sl "logs", .arr logs),
               (sl "results", .obj (specCanonicalResults results))])))

/-!
## Session data and the pending-submission queue
-/

/-- A session document as submitted: the `results` map
(`version_id → test_key → \x7bstatus, notes\x7d`) plus the remaining
top-level fields (`meta`, `attached_logs`, …), which
`prepare_data_for_api` deep-copies untouched and which are therefore
kept opaque. -/
structure SessionData where
  results : List (List Char × List (List Char × TestEntry))
  other : List Char
deriving DecidableEq, Repr

/-- `prepare_data_for_api` (api_client.py lines 273–296): clean every
note with `clean_notes_for_api`; everything else is copied verbatim. -/
def prepare_data_for_api (d : SessionData) : SessionData :=
  { d with
    results := d.results.map (fun ver =>
      (ver.1, ver.2.map (fun t =>
        (t.1, { t.2 with notes := clean_notes_for_api t.2.notes })))) }

/-- `PendingSubmission` dataclass (api_client.py lines 653–682). -/
structure PendingSubmission where
  id : List Char
  file_path : List Char
  data : SessionData
  created_at : List Char
  attempts : Nat := 0
  last_error : Option (List Char) := none
deriving DecidableEq, Repr

/-- `DataCache.add_pending_submission`: append a fresh entry (the
generated uuid and timestamp enter as parameters) and flush. -/
def add_pending_submission (filePath : List Char) (data : SessionData)
    (freshId ts : List Char) (q : List PendingSubmission) :
    List PendingSubmission :=
  q ++ [{ id := freshId, file_path := filePath, data := data, created_at := ts }]

/-- `DataCache.remove_pending_submission`: drop the first entry with the
given id. -/
def removePending (sid : List Char) :
    List PendingSubmission → List PendingSubmission
  | [] => []
  | p :: rest => if p.id = sid then rest else p :: removePending sid rest

/-- `DataCache.update_pending_submission`: set `attempts` and
`last_error` on the first entry with the given id. -/
def updatePending (sid : List Char) (att : Nat) (err : Option (List Char)) :
    List PendingSubmission → List PendingSubmission
  | [] => []
  | p :: rest =>
    if p.id = sid then { p with attempts := att, last_error := err } :: rest
    else p :: updatePending sid att err rest

/-!
## The client: submission, drain, cache lifecycle, configuration
-/

/-- Result of one `submit_report` / `submit_report_data` call (the
fields the verified claims consume). -/
structure SubmitRes where
  success : Bool
  report_id : Option Nat := none
  error : Option (List Char) := none
deriving DecidableEq, Repr

/-- Outcome of the one network request a submission performs. -/
inductive NetOutcome where
  | response (status : Nat) (body : Json) : NetOutcome
  | connError : NetOutcome
  | timeout : NetOutcome
  | reqError (msg : List Char) : NetOutcome

/-- Transport-error outcomes: `requests.exceptions.ConnectionError`,
`Timeout`, and the residual `RequestException`. -/
def NetOutcome.isTransportError : NetOutcome → Bool
  | .response _ _ => false
  | .connError => true
  | .timeout => true
  | .reqError _ => true

/-- `result.get('error', f"HTTP \x7bstatus\x7d")` on a parsed body. -/
def bodyError (status : Nat) (body : Json) : List Char :=
  match body with
  | .obj kvs =>
    match kvs.lookup (sl "error") with
    | some (.str s) => s
    | _ => sl "HTTP " ++ natToDec status
  | _ => sl "HTTP " ++ natToDec status

/-- `TestPanelClient.submit_report` (api_client.py lines 1109–1211),
after the file was read and parsed (`raw`): clean the data, attempt the
request, and on a transport error with `queue_if_offline` enqueue the
cleaned data.  Returns the `SubmitResult` and the new pending queue. -/
def submit_report (raw : SessionData) (out : NetOutcome)
    (queueIfOffline : Bool) (freshId ts filePath : List Char)
    (q : List PendingSubmission) : SubmitRes × List PendingSubmission :=
  let data := prepare_data_for_api raw
  match out with
  | .response status body =>
    if status = 201 then ({ success := true }, q)
    else ({ success := false, error := some (bodyError status body) }, q)
  | .connError =>
    if queueIfOffline then
      (({ success := false,
          error := some (sl "Offline - report queued for later submission (ID: " ++
            freshId ++ sl ")") }),
       add_pending_submission filePath data freshId ts q)
    else ({ success := false, error := some (sl "Could not connect to API") }, q)
  | .timeout =>
    if queueIfOffline then
      (({ success := false,
          error := some (sl "Timeout - report queued for later submission (ID: " ++
            freshId ++ sl ")") }),
       add_pending_submission filePath data freshId ts q)
    else ({ success := false, error := some (sl "Request timed out") }, q)
  | .reqError msg =>
    if queueIfOffline then
      (({ success := false,
          error := some (sl "Error - report queued for later submission (ID: " ++
            freshId ++ sl ")") }),
       add_pending_submission filePath data freshId ts q)
    else ({ success := false, error := some msg }, q)

/-- `_process_pending_submissions` (api_client.py lines 1272–1312): walk
the snapshot of the queue once; submit each entry
(`queue_if_offline=False`, outcome `f`); remove on success, record the
attempt on failure.  Also returns the ids attempted, in order. -/
def processPendingGo (f : PendingSubmission → SubmitRes) :
    List PendingSubmission → List PendingSubmission →
    List PendingSubmission × List (List Char)
  | [], cur => (cur, [])
  | s :: rest, cur =>
    let r := f s
    if r.success then
      let nxt := processPendingGo f rest (removePending s.id cur)
      (nxt.1, s.id :: nxt.2)
    else
      let nxt := processPendingGo f rest
        (updatePending s.id (s.attempts + 1) r.error cur)
      (nxt.1, s.id :: nxt.2)

def process_pending_submissions (f : PendingSubmission → SubmitRes)
    (q : List PendingSubmission) : List PendingSubmission × List (List Char) :=
  processPendingGo f q q

/-- `_update_online_status` drains the queue exactly on the
offline-to-online transition (api_client.py lines 1701–1720). -/
def updateOnlineStatusDrains (wasOnline isOnline : Bool) : Bool :=
  isOnline && !wasOnline

/-- The persisted `DataCache._data` record (api_client.py lines
712–728); `cache_version` is `Option`al because `data.get` on a
hand-edited record can return nothing. -/
structure CacheData where
  cache_version : Option Int
  last_sync : Option (List Char)
  versions : List Json
  versions_hash : Option (List Char)
  tests : List Json
  tests_hash : Option (List Char)
  categories : List Json
  version_tests : List (List Char × List Json)
  version_skip_tests : List (List Char × List (List Char))
  pending_submissions : List PendingSubmission
  conn_is_online : Bool
  conn_last_online : Option (List Char)
  conn_last_check : Option (List Char)

def CACHE_VERSION : Int := 1

/-- The fresh record built in `DataCache.__init__`. -/
def defaultCacheData : CacheData :=
  { cache_version := some CACHE_VERSION, last_sync := none, versions := [],
    versions_hash := none, tests := [], tests_hash := none, categories := [],
    version_tests := [], version_skip_tests := [], pending_submissions := [],
    conn_is_online := false, conn_last_online := none, conn_last_check := none }

/-- What `_load` finds on disk. -/
inductive CacheFile where
  | missing : CacheFile
  | unreadable : CacheFile
  | parsed (d : CacheData) : CacheFile

/-- `DataCache.__init__` followed by `_load` (api_client.py lines
696–765): the in-memory record after startup.  A missing or unreadable
file and a `cache_version` mismatch all leave the fresh default record
in place; only a version-matching record replaces it. -/
def dataCacheLoad (file : CacheFile) : CacheData :=
  match file with
  | .missing => defaultCacheData
  | .unreadable => defaultCacheData
  | .parsed d =>
    if d.cache_version = some CACHE_VERSION then d else defaultCacheData

/-- `DataCache.clear` (api_client.py lines 945–967): rebuild the record
from scratch, carrying over only `pending_submissions`. -/
def cacheClear (d : CacheData) : CacheData :=
  { cache_version := some CACHE_VERSION, last_sync := none, versions := [],
    versions_hash := none, tests := [], tests_hash := none, categories := [],
    version_tests := [], version_skip_tests := [],
    pending_submissions := d.pending_submissions,
    conn_is_online := false, conn_last_online := none, conn_last_check := none }

/-- `Config` dataclass (api_client.py lines 299–336). -/
structure Config where
  api_url : List Char
  api_key : List Char
  check_interval : Int := 600
  auto_check_retests : Bool := true
  timeout : Int := 30

def joinWith (sep : List Char) : List (List Char) → List Char
  | [] => []
  | [x] => x
  | x :: y :: rest => x ++ sep ++ joinWith sep (y :: rest)

/-- `Config.validate`: the accumulated error list. -/
def configValidate (c : Config) : List (List Char) :=
  (if c.api_url.isEmpty then [sl "api_url is required"] else []) ++
    (if c.api_key.isEmpty then [sl "api_key is required"] else []) ++
      (if !(sl "sk_").isPrefixOf c.api_key then
        [sl "api_key should start with \x27sk_\x27"] else [])

/-- `TestPanelClient.__init__` (api_client.py lines 987–1010): raises
`ValueError` exactly when `validate` reports errors. -/
def clientInit (c : Config) : Except (List Char) Unit :=
  let errors := configValidate c
  if errors.isEmpty then .ok ()
  else .error (sl "Invalid configuration: " ++ joinWith (sl ", ") errors)

/-!
## The upload pipeline (`upload_to_panel`, main.py lines 1343–1553)

The algorithmic core as a pure function of the session state and the
server's reconciliation answer: collect non-empty reports, hash them,
select `changed`/`skipped`, update the confirmed digests, and build the
filtered upload payload.
-/

/-- `parse_version_storage_key` (main.py lines 121–133). -/
def parse_version_storage_key (k : List Char) :
    List Char × Option (List Char) :=
  match splitFirstSub ['|'] k with
  | some pr => (pr.1, some pr.2)
  | none => (k, none)

/-- Per-version entry of a `check_hash.php` response
(`HashCheckVersionResult`, api_client.py lines 525–533). -/
structure HashCheckVersionResult where
  entryExists : Bool
  hash_matches : Bool
  server_hash : Option (List Char)
  report_id : Option Nat
  revision_count : Nat
  action : List Char
deriving DecidableEq, Repr

/-- `HashCheckResult` (api_client.py lines 536–557). -/
structure HashCheckRes where
  success : Bool
  results : List (List Char × HashCheckVersionResult)
  error : Option (List Char) := none
deriving DecidableEq, Repr

/-- One version report has content when some test carries a non-empty
(after trimming) status or notes string (main.py lines 1375–1383). -/
def versionHasContent (vr : List (List Char × TestEntry)) : Bool :=
  vr.any (fun t =>
    !(stripWs t.2.status).isEmpty || !(stripWs t.2.notes).isEmpty)

/-- The `COLLECT` filter: keep exactly the versions with content. -/
def collectValid (results : List (List Char × List (List Char × TestEntry))) :
    List (List Char × List (List Char × TestEntry)) :=
  results.filter (fun ver => versionHasContent ver.2)

/-- `version_hashes`: one digest per retained version, hashing with the
attached logs of the parsed original version id (main.py lines
1405–1411). -/
def computeVersionHashes
    (valid : List (List Char × List (List Char × TestEntry)))
    (attachedLogs : List (List Char × List Json)) :
    List (List Char × List Char) :=
  valid.map (fun ver =>
    (ver.1,
     compute_version_hash ver.2
       ((attachedLogs.lookup (parse_version_storage_key ver.1).1).getD [])))

/-- `locally_changed`: versions whose digest differs from the last
confirmed digest (`upload_hashes.get(vid)`). -/
def locallyChangedOf (versionHashes uploadHashes : List (List Char × List Char)) :
    List (List Char) :=
  (versionHashes.filter
    (fun kv => !(uploadHashes.lookup kv.1 == some kv.2))).map Prod.fst

/-- Python dict assignment `m[k] = v` on an association list. -/
def setAssoc (k v : List Char) :
    List (List Char × List Char) → List (List Char × List Char)
  | [] => [(k, v)]
  | p :: rest => if p.1 = k then (k, v) :: rest else p :: setAssoc k v rest

/-- Does the server response classify `k` as `skip`? -/
def isSkipFor (hcResults : List (List Char × HashCheckVersionResult))
    (k : List Char) : Bool :=
  match hcResults.lookup k with
  | some r => r.action == sl "skip"
  | none => false

/-- The per-version selection loop of the success branch (main.py lines
1460–1479): `skip` joins `skipped_versions` and confirms the digest;
`create`, `update` and absent-from-response versions join
`changed_versions`. -/
def selectLoop (hcResults : List (List Char × HashCheckVersionResult)) :
    List (List Char × List Char) →
    List (List Char) × List (List Char) × List (List Char × List Char) →
    List (List Char) × List (List Char) × List (List Char × List Char)
  | [], acc => acc
  | kv :: rest, (changed, skipped, up) =>
    match hcResults.lookup kv.1 with
    | some r =>
      if r.action = sl "skip" then
        selectLoop hcResults rest (changed, skipped ++ [kv.1], setAssoc kv.1 kv.2 up)
      else
        selectLoop hcResults rest (changed ++ [kv.1], skipped, up)
    | none =>
      selectLoop hcResults rest (changed ++ [kv.1], skipped, up)

/-- The outputs of one `upload_to_panel` invocation that the claims
speak about. -/
structure UploadSelection where
  versionHashes : List (List Char × List Char)
  locallyChanged : List (List Char)
  changed : List (List Char)
  skipped : List (List Char)
  newUploadHashes : List (List Char × List Char)
  filteredResults : List (List Char × List (List Char × TestEntry))

/-- The pure core of `upload_to_panel`: collect → hash → reconcile →
select.  On a failed reconciliation exchange the selection falls back to
`locally_changed`; on success it follows the server's per-version
actions, defaulting to upload for versions absent from the response. -/
def upload_to_panel_core
    (results : List (List Char × List (List Char × TestEntry)))
    (attachedLogs : List (List Char × List Json))
    (uploadHashes : List (List Char × List Char))
    (hc : HashCheckRes) : UploadSelection :=
  let valid := collectValid results
  let vh := computeVersionHashes valid attachedLogs
  let locallyChanged := locallyChangedOf vh uploadHashes
  if !hc.success then
    { versionHashes := vh, locallyChanged := locallyChanged,
      changed := locallyChanged, skipped := [], newUploadHashes := uploadHashes,
      filteredResults := locallyChanged.filterMap
        (fun k => (valid.lookup k).map (fun vr => (k, vr))) }
  else
    let sel := selectLoop hc.results vh ([], [], uploadHashes)
    { versionHashes := vh, locallyChanged := locallyChanged,
      changed := sel.1, skipped := sel.2.1, newUploadHashes := sel.2.2,
      filteredResults := sel.1.filterMap
        (fun k => (valid.lookup k).map (fun vr => (k, vr))) }

/-!
## Concrete inputs used by witnesses
-/

def emptySession : SessionData := { results := [], other := [] }

def c3OldEntry : PendingSubmission :=
  { id := sl "zzzz9999", file_path := [], data := emptySession,
    created_at := sl "t-1" }

def c3NewEntry : PendingSubmission :=
  { id := sl "aaaa1111", file_path := sl "f.json",
    data := prepare_data_for_api emptySession, created_at := sl "t0" }

def c4BadRecord : CacheData :=
  { cache_version := some 0, last_sync := none, versions := [],
    versions_hash := none, tests := [], tests_hash := none, categories := [],
    version_tests := [], version_skip_tests := [],
    pending_submissions := [{ id := sl "deadbeef", file_path := [],
                              data := emptySession, created_at := [] }],
    conn_is_online := false, conn_last_online := none,
    conn_last_check := none }

def c5EntryA : PendingSubmission :=
  { id := sl "idA", file_path := [], data := emptySession, created_at := [],
    attempts := 3 }

def c5EntryB : PendingSubmission :=
  { id := sl "idB", file_path := [], data := emptySession, created_at := [],
    attempts := 0 }

/-- A drain cycle in which `idA` is accepted and `idB` keeps failing. -/
def c5Outcome (p : PendingSubmission) : SubmitRes :=
  if p.id = sl "idA" then { success := true }
  else { success := false, error := some (sl "HTTP 500") }

/-- Two result sets that are equal as maps, built in different orders. -/
def c2R1 : List (List Char × TestEntry) :=
  [(sl "a", { status := sl "Working", notes := sl "hello" }),
   (sl "b", { status := sl "Broken", notes := [] })]

def c2R2 : List (List Char × TestEntry) :=
  [(sl "b", { status := sl "Broken", notes := [] }),
   (sl "a", { status := sl "Working", notes := sl "hello" })]

/-- An already-canonical note: plain text followed by an embedded-image
marker, no code fence, no Qt CSS boilerplate. -/
def exMarked : List Char :=
  sl "hello \x7b\x7bIMAGE:data:image/png;base64,AA\x7d\x7d"

/-- A session with one empty report (`v0`) and one with content (`v1`). -/
def exResults : List (List Char × List (List Char × TestEntry)) :=
  [(sl "v0", [(sl "t1", { status := sl "  ", notes := [] })]),
   (sl "v1", [(sl "t1", { status := sl "Working", notes := [] })])]

/-- A failed reconciliation exchange (transport error). -/
def exHcFail : HashCheckRes :=
  { success := false, results := [],
    error := some (sl "Could not connect to API") }

/-- A successful reconciliation response that mentions no version. -/
def exHcOkEmpty : HashCheckRes := { success := true, results := [] }

/-!
## Theorems
-/

/-- Claim C3: a submission attempt that fails with a transport error
while `queue_if_offline` is enabled appends exactly one entry to the
pending queue, whose payload is the cleaned data of the attempted
submission, and leaves every pre-existing entry untouched. -/
theorem c3_transport_failure_queues_exactly_one (raw : SessionData)
    (out : NetOutcome) (freshId ts filePath : List Char)
    (q : List PendingSubmission) (ht : out.isTransportError = true) :
    (submit_report raw out true freshId ts filePath q).2 =
      q ++ [{ id := freshId, file_path := filePath,
              data := prepare_data_for_api raw, created_at := ts }] ∧
    (submit_report raw out true freshId ts filePath q).2.length =
      q.length + 1 ∧
    ∀ i, i < q.length →
      (submit_report raw out true freshId ts filePath q).2[i]? = q[i]? := by
  have hq : (submit_report raw out true freshId ts filePath q).2 =
      q ++ [{ id := freshId, file_path := filePath,
              data := prepare_data_for_api raw, created_at := ts }] := by
    cases out with
    | response status body => simp [NetOutcome.isTransportError] at ht
    | connError => simp [submit_report, add_pending_submission]
    | timeout => simp [submit_report, add_pending_submission]
    | reqError msg => simp [submit_report, add_pending_submission]
  refine ⟨hq, ?_, ?_⟩
  · rw [hq]; simp
  · intro i hi
    rw [hq]
    exact List.getElem?_append_left hi

/-- Witness for C3: a concrete connection error on a one-entry queue. -/
theorem c3_witness :
    NetOutcome.connError.isTransportError = true ∧
    (submit_report emptySession .connError true (sl "aaaa1111") (sl "t0")
        (sl "f.json") [c3OldEntry]).2 = [c3OldEntry, c3NewEntry] :=
  ⟨by decide,
   (c3_transport_failure_queues_exactly_one emptySession .connError
      (sl "aaaa1111") (sl "t0") (sl "f.json") [c3OldEntry] (by decide)).1⟩

/-- Claim C4 (code bug): on a `cache_version` mismatch the loaded
in-memory record is the fresh default, whose pending-submission list is
empty — the persisted pending submissions are NOT carried over, contrary
to the schema-reset exception the specification states. -/
theorem c4_schema_mismatch_loses_pending (d : CacheData)
    (h : ¬ d.cache_version = some CACHE_VERSION) :
    (dataCacheLoad (.parsed d)).pending_submissions = [] := by
  simp [dataCacheLoad, h, defaultCacheData]

/-- Witness for C4: a persisted record at schema version 0 holding one
pending submission loads to an empty pending list. -/
theorem c4_witness :
    ¬ c4BadRecord.cache_version = some CACHE_VERSION ∧
    c4BadRecord.pending_submissions ≠ [] ∧
    (dataCacheLoad (.parsed c4BadRecord)).pending_submissions = [] :=
  ⟨by decide, by decide,
   c4_schema_mismatch_loses_pending c4BadRecord (by decide)⟩

/-- Removing an id that occurs in no entry of the prefix skips the
prefix. -/
theorem removePending_append_left (sid : List Char)
    (done rest : List PendingSubmission) (h : ∀ p ∈ done, p.id ≠ sid) :
    removePending sid (done ++ rest) = done ++ removePending sid rest := by
  induction done with
  | nil => rfl
  | cons p done ih =>
    have hp : p.id ≠ sid := h p (by simp)
    have ih2 := ih (fun q hq => h q (by simp [hq]))
    simp [removePending, hp, ih2]

/-- Updating an id that occurs in no entry of the prefix skips the
prefix. -/
theorem updatePending_append_left (sid : List Char) (att : Nat)
    (err : Option (List Char)) (done rest : List PendingSubmission)
    (h : ∀ p ∈ done, p.id ≠ sid) :
    updatePending sid att err (done ++ rest) =
      done ++ updatePending sid att err rest := by
  induction done with
  | nil => rfl
  | cons p done ih =>
    have hp : p.id ≠ sid := h p (by simp)
    have ih2 := ih (fun q hq => h q (by simp [hq]))
    simp [updatePending, hp, ih2]

/-- The drain loop, characterized: walking the snapshot over a queue
that extends it by an untouched prefix removes the successes, bumps the
failures, and attempts every snapshot entry exactly once. -/
theorem processPendingGo_spec (f : PendingSubmission → SubmitRes) :
    ∀ (snap done : List PendingSubmission),
      (snap.map (fun p => p.id)).Nodup →
      (∀ p ∈ done, p.id ∉ snap.map (fun p => p.id)) →
      processPendingGo f snap (done ++ snap) =
        (done ++ snap.filterMap (fun s =>
          if (f s).success then none
          else some { s with attempts := s.attempts + 1,
                             last_error := (f s).error }),
         snap.map (fun p => p.id)) := by
  intro snap
  induction snap with
  | nil => intro done _ _; simp [processPendingGo]
  | cons s rest ih =>
    intro done hnd hdisj
    have hdone_ne : ∀ p ∈ done, p.id ≠ s.id := by
      intro p hp
      have := hdisj p hp
      simp only [List.map_cons, List.mem_cons] at this
      exact fun hcontra => this (Or.inl hcontra)
    have hs_not_rest : s.id ∉ rest.map (fun p => p.id) := by
      have := hnd
      simp only [List.map_cons, List.nodup_cons] at this
      exact this.1
    have hnd_rest : (rest.map (fun p => p.id)).Nodup := by
      have := hnd
      simp only [List.map_cons, List.nodup_cons] at this
      exact this.2
    have hdisj_rest : ∀ p ∈ done, p.id ∉ rest.map (fun p => p.id) := by
      intro p hp
      have := hdisj p hp
      simp only [List.map_cons, List.mem_cons] at this
      exact fun hcontra => this (Or.inr hcontra)
    by_cases hsucc : (f s).success
    · have h1 : removePending s.id (done ++ s :: rest) = done ++ rest := by
        rw [removePending_append_left s.id done (s :: rest) hdone_ne]
        simp [removePending]
      have h2 := ih done hnd_rest hdisj_rest
      simp [processPendingGo, hsucc, h1, h2]
    · have h1 : updatePending s.id (s.attempts + 1) (f s).error
          (done ++ s :: rest) =
          (done ++ [{ s with attempts := s.attempts + 1,
                             last_error := (f s).error }]) ++ rest := by
        rw [updatePending_append_left s.id (s.attempts + 1) (f s).error done
          (s :: rest) hdone_ne]
        simp [updatePending]
      have hdisj2 : ∀ p ∈ done ++ [{ s with attempts := s.attempts + 1,
                                            last_error := (f s).error }],
          p.id ∉ rest.map (fun p => p.id) := by
        intro p hp
        rcases List.mem_append.mp hp with hin | hin
        · exact hdisj_rest p hin
        · simp only [List.mem_singleton] at hin
          subst hin
          exact hs_not_rest
      have h2 := ih (done ++ [{ s with attempts := s.attempts + 1,
                                       last_error := (f s).error }])
        hnd_rest hdisj2
      simp only [List.append_assoc, List.singleton_append] at h2
      simp [processPendingGo, hsucc, h1, h2]

/-- Claim C5: one drain cycle retries each pending submission exactly
once, removes the submissions whose retry succeeded, and keeps each
failed submission with `attempts` incremented by one and `last_error`
set to the failure's error. -/
theorem c5_drain_cycle (f : PendingSubmission → SubmitRes)
    (q : List PendingSubmission) (h : (q.map (fun p => p.id)).Nodup) :
    (process_pending_submissions f q).1 =
      q.filterMap (fun s =>
        if (f s).success then none
        else some { s with attempts := s.attempts + 1,
                           last_error := (f s).error }) ∧
    (process_pending_submissions f q).2 = q.map (fun p => p.id) ∧
    ∀ was now, updateOnlineStatusDrains was now = (now && !was) := by
  have hspec := processPendingGo_spec f q [] h (by simp)
  simp only [List.nil_append] at hspec
  unfold process_pending_submissions
  rw [hspec]
  exact ⟨rfl, rfl, fun _ _ => rfl⟩

/-- Witness for C5: a two-entry queue where the first retry succeeds and
the second fails. -/
theorem c5_witness :
    (([c5EntryA, c5EntryB].map (fun p => p.id)).Nodup) ∧
    (process_pending_submissions c5Outcome [c5EntryA, c5EntryB]).1 =
      [c5EntryA, c5EntryB].filterMap (fun s =>
        if (c5Outcome s).success then none
        else some { s with attempts := s.attempts + 1,
                           last_error := (c5Outcome s).error }) :=
  ⟨by decide,
   (c5_drain_cycle c5Outcome [c5EntryA, c5EntryB] (by decide)).1⟩

/-- `hasSub` is exactly substring occurrence. -/
theorem hasSub_exists {pat s : List Char} :
    hasSub pat s = true ↔ ∃ u v, s = u ++ pat ++ v := by
  induction s with
  | nil =>
    simp only [hasSub, List.isPrefixOf_iff_prefix]
    constructor
    · intro h
      rcases h with ⟨t, ht⟩
      rcases List.append_eq_nil.mp ht with ⟨h1, h2⟩
      exact ⟨[], [], by simp [h1]⟩
    · rintro ⟨u, v, huv⟩
      rcases List.append_eq_nil.mp huv.symm with ⟨h1, h2⟩
      rcases List.append_eq_nil.mp h1 with ⟨_, h3⟩
      exact ⟨[], by simp [h3]⟩
  | cons c rest ih =>
    simp only [hasSub, Bool.or_eq_true, List.isPrefixOf_iff_prefix, ih]
    constructor
    · rintro (⟨t, ht⟩ | ⟨u, v, huv⟩)
      · exact ⟨[], t, by simp [← ht]⟩
      · exact ⟨c :: u, v, by simp [huv]⟩
    · rintro ⟨u, v, huv⟩
      cases u with
      | nil =>
        left
        exact ⟨v, by simpa using huv.symm⟩
      | cons a u1 =>
        right
        refine ⟨u1, v, ?_⟩
        have : c = a ∧ rest = u1 ++ pat ++ v := by
          simpa using huv
        simp [this.2]

/-- Every character of an occurring pattern occurs in the string. -/
theorem mem_of_hasSub {pat s : List Char} {c : Char}
    (h : hasSub pat s = true) (hc : c ∈ pat) : c ∈ s := by
  rcases hasSub_exists.mp h with ⟨u, v, huv⟩
  subst huv
  simp [hc]

/-- A string containing a non-empty pattern is non-empty. -/
theorem ne_nil_of_hasSub {pat s : List Char}
    (h : hasSub pat s = true) (hp : pat ≠ []) : s ≠ [] := by
  rcases hasSub_exists.mp h with ⟨u, v, huv⟩
  subst huv
  intro hnil
  rcases List.append_eq_nil.mp hnil with ⟨h1, _⟩
  exact hp (List.append_eq_nil.mp h1).2

/-- `str.replace` is the identity when the pattern does not occur. -/
theorem replaceAllGo_of_not_hasSub {pat rep : List Char} :
    ∀ (fuel : Nat) (s : List Char), hasSub pat s = false →
      replaceAllGo pat rep fuel s = s := by
  intro fuel
  induction fuel with
  | zero => intro s _; cases s <;> rfl
  | succ fuel ih =>
    intro s hs
    cases s with
    | nil => rfl
    | cons c rest =>
      simp only [hasSub, Bool.or_eq_false_iff] at hs
      have hnp : pat.isPrefixOf (c :: rest) = false := hs.1
      have ih2 := ih rest hs.2
      simp [replaceAllGo, hnp, ih2]

theorem replaceAll_of_not_hasSub {pat rep s : List Char}
    (h : hasSub pat s = false) : replaceAll pat rep s = s :=
  replaceAllGo_of_not_hasSub s.length s h

/-- `splitFirstSub` fails exactly when the pattern does not occur. -/
theorem splitFirstSub_none_iff {pat s : List Char} :
    splitFirstSub pat s = none ↔ hasSub pat s = false := by
  induction s with
  | nil =>
    simp only [splitFirstSub, hasSub]
    by_cases h : pat.isPrefixOf [] = true
    · simp [h]
    · simp only [Bool.not_eq_true] at h
      simp [h]
  | cons c rest ih =>
    simp only [splitFirstSub, hasSub]
    by_cases h : pat.isPrefixOf (c :: rest) = true
    · simp [h]
    · simp only [Bool.not_eq_true] at h
      simp [h, ih]

/-- Without a backtick there is no fenced-code match. -/
theorem hasMdCodeBlocks_of_no_tick {s : List Char} (h : '\x60' ∉ s) :
    hasMdCodeBlocks s = false := by
  have hsub : hasSub (sl "```") s = false := by
    by_contra hc
    simp only [Bool.not_eq_false] at hc
    exact h (mem_of_hasSub hc (by decide))
  rw [hasMdCodeBlocks, splitFirstSub_none_iff.mpr hsub]

/-- `dropWhile` is idempotent. -/
theorem dropWhile_idem (p : Char → Bool) (s : List Char) :
    (s.dropWhile p).dropWhile p = s.dropWhile p := by
  induction s with
  | nil => rfl
  | cons a t ih =>
    by_cases ha : p a = true
    · simp [List.dropWhile_cons, ha, ih]
    · simp only [Bool.not_eq_true] at ha
      simp [List.dropWhile_cons, ha]

/-- The head of a `dropWhile` result falsifies the predicate. -/
theorem head_dropWhile_false (p : Char → Bool) (s : List Char) (c : Char)
    (h : (s.dropWhile p).head? = some c) : p c = false := by
  induction s with
  | nil => cases h
  | cons a t ih =>
    by_cases ha : p a = true
    · rw [List.dropWhile_cons, if_pos ha] at h
      exact ih h
    · simp only [Bool.not_eq_true] at ha
      rw [List.dropWhile_cons, if_neg (by simp [ha])] at h
      cases h
      exact ha

/-- A list whose head falsifies the predicate survives `dropWhile`. -/
theorem dropWhile_eq_self_of_head (p : Char → Bool) (s : List Char)
    (h : ∀ c, s.head? = some c → p c = false) : s.dropWhile p = s := by
  cases s with
  | nil => rfl
  | cons a t =>
    rw [List.dropWhile_cons, if_neg (by simp [h a rfl])]

/-- `strip` only removes an outer frame. -/
theorem stripSet_decomp (p : Char → Bool) (s : List Char) :
    ∃ u v, s = u ++ stripSet p s ++ v := by
  have h1 : s = s.takeWhile p ++ s.dropWhile p :=
    (List.takeWhile_append_dropWhile (p := p) (l := s)).symm
  have h2 : (s.dropWhile p).reverse =
      (s.dropWhile p).reverse.takeWhile p ++ (s.dropWhile p).reverse.dropWhile p :=
    (List.takeWhile_append_dropWhile (p := p)
      (l := (s.dropWhile p).reverse)).symm
  have h3 : s.dropWhile p =
      stripSet p s ++ ((s.dropWhile p).reverse.takeWhile p).reverse := by
    have h4 := congrArg List.reverse h2
    rw [List.reverse_reverse, List.reverse_append] at h4
    exact h4
  exact ⟨s.takeWhile p, ((s.dropWhile p).reverse.takeWhile p).reverse,
    by rw [List.append_assoc, ← h3, ← h1]⟩

/-- Characters of the stripped string come from the original. -/
theorem mem_stripSet (p : Char → Bool) {s : List Char} {c : Char}
    (h : c ∈ stripSet p s) : c ∈ s := by
  rcases stripSet_decomp p s with ⟨u, v, huv⟩
  rw [huv]
  simp [h]

/-- `strip` is idempotent. -/
theorem stripSet_idem (p : Char → Bool) (s : List Char) :
    stripSet p (stripSet p s) = stripSet p s := by
  by_cases hnil : (s.dropWhile p).reverse.dropWhile p = []
  · unfold stripSet
    rw [hnil]
    rfl
  · have hhead : ∀ c, (stripSet p s).head? = some c → p c = false := by
      intro c hc
      unfold stripSet at hc
      rw [List.head?_reverse] at hc
      have hlast : ((s.dropWhile p).reverse.dropWhile p).getLast? = some c := hc
      have hsplit := List.takeWhile_append_dropWhile (p := p)
        (l := (s.dropWhile p).reverse)
      have : (s.dropWhile p).reverse.getLast? = some c := by
        rw [← hsplit, List.getLast?_append_of_ne_nil _ hnil]
        exact hlast
      rw [List.getLast?_reverse] at this
      exact head_dropWhile_false p s c this
    show (((stripSet p s).dropWhile p).reverse.dropWhile p).reverse = stripSet p s
    rw [dropWhile_eq_self_of_head p _ hhead]
    have e2 : (stripSet p s).reverse = (s.dropWhile p).reverse.dropWhile p := by
      unfold stripSet
      rw [List.reverse_reverse]
    rw [e2, dropWhile_idem]
    rfl

/-- `dropWhile` cannot eat into an occurrence of a pattern that starts
with a predicate-falsifying character: the occurrence survives. -/
theorem dropWhile_keeps_occurrence (p : Char → Bool) {pat : List Char}
    (hne : pat ≠ []) (hpat : ∀ c ∈ pat, p c = false) :
    ∀ (u v : List Char), ∃ u',
      (u ++ (pat ++ v)).dropWhile p = u' ++ (pat ++ v) := by
  intro u
  induction u with
  | nil =>
    intro v
    refine ⟨[], ?_⟩
    cases pat with
    | nil => exact absurd rfl hne
    | cons a t =>
      simp only [List.nil_append, List.cons_append, List.dropWhile_cons]
      rw [if_neg (by simp [hpat a (by simp)])]
  | cons a u1 ih =>
    intro v
    by_cases ha : p a = true
    · rcases ih v with ⟨u', hu'⟩
      refine ⟨u', ?_⟩
      simp only [List.cons_append, List.dropWhile_cons, if_pos ha]
      exact hu'
    · simp only [Bool.not_eq_true] at ha
      refine ⟨a :: u1, ?_⟩
      simp [List.dropWhile_cons, ha]

/-- A whitespace-free pattern occurrence survives `strip`. -/
theorem hasSub_stripSet (p : Char → Bool) {pat s : List Char}
    (hne : pat ≠ []) (hpat : ∀ c ∈ pat, p c = false)
    (h : hasSub pat s = true) : hasSub pat (stripSet p s) = true := by
  rcases hasSub_exists.mp h with ⟨u, v, huv⟩
  subst huv
  rcases dropWhile_keeps_occurrence p hne hpat u v with ⟨u', hu'⟩
  have hrevpat : pat.reverse ≠ [] := by simpa using hne
  have hrevmem : ∀ c ∈ pat.reverse, p c = false := by
    intro c hc
    exact hpat c (List.mem_reverse.mp hc)
  have hrw : (u' ++ (pat ++ v)).reverse =
      v.reverse ++ (pat.reverse ++ u'.reverse) := by
    simp
  rcases dropWhile_keeps_occurrence p hrevpat hrevmem v.reverse u'.reverse
    with ⟨v', hv'⟩
  apply hasSub_exists.mpr
  refine ⟨u', v'.reverse, ?_⟩
  unfold stripSet
  rw [show u ++ pat ++ v = u ++ (pat ++ v) by simp]
  rw [hu', hrw, hv']
  simp

/-- No new occurrence of any pattern appears after `strip`. -/
theorem hasSub_of_hasSub_stripSet (p : Char → Bool) {pat s : List Char}
    (h : hasSub pat (stripSet p s) = true) : hasSub pat s = true := by
  rcases hasSub_exists.mp h with ⟨u, v, huv⟩
  rcases stripSet_decomp p s with ⟨a, b, hab⟩
  apply hasSub_exists.mpr
  refine ⟨a ++ u, v ++ b, ?_⟩
  rw [hab, huv]
  simp

/-- On input that already carries an embedded-image marker and contains
neither a backtick nor the Qt CSS boilerplate, both canonicalizers take
the markdown-detection branch and reduce to a whitespace trim. -/
theorem clean_notes_marker_branch {x : List Char}
    (hm : hasSub imageMarker2 x = true) (ht : '\x60' ∉ x)
    (hcss : hasSub qtCssText x = false) :
    clean_notes x = stripWs x ∧ clean_notes_for_api x = stripWs x := by
  have hne : x ≠ [] := ne_nil_of_hasSub hm (by decide)
  have hempty : x.isEmpty = false := by
    cases x with
    | nil => exact absurd rfl hne
    | cons a t => rfl
  have hmd : hasMdCodeBlocks x = false := hasMdCodeBlocks_of_no_tick ht
  have hmarkers : hasImageMarkers x = true := by
    unfold hasImageMarkers
    rw [hm]
    simp
  have hrep : replaceAll qtCssText [] x = x := replaceAll_of_not_hasSub hcss
  constructor
  · simp [clean_notes, hempty, hmd, hmarkers, hrep, stripWs]
  · simp [clean_notes_for_api, hempty, hmd, hmarkers, hrep, stripWs]

/-- Counterexample to claim C1: on the double-escaped input `&amp;lt;`
both canonicalizers decode one entity layer per application
(`&amp;lt;` → `&lt;` → `<`), so applying twice differs from applying
once. -/
theorem c1_counterexample :
    clean_notes (sl "&amp;lt;") = sl "&lt;" ∧
    clean_notes (clean_notes (sl "&amp;lt;")) = sl "<" ∧
    clean_notes (clean_notes (sl "&amp;lt;")) ≠ clean_notes (sl "&amp;lt;") ∧
    clean_notes_for_api (sl "&amp;lt;") = sl "&lt;" ∧
    clean_notes_for_api (clean_notes_for_api (sl "&amp;lt;")) = sl "<" ∧
    clean_notes_for_api (clean_notes_for_api (sl "&amp;lt;")) ≠
      clean_notes_for_api (sl "&amp;lt;") := by
  refine ⟨by decide, by decide, by decide, by decide, by decide, by decide⟩

/-- Claim C1 as amended: canonicalization is not idempotent in general
(HTML entities are decoded one layer per pass), but it is idempotent for
every input already carrying the canonical embedded-image marker
`\x7b\x7bIMAGE:data:image/` that contains no backtick and no occurrence
of the Qt CSS boilerplate: there both canonicalizers only strip
boilerplate and trim whitespace. -/
theorem c1_amended_idempotent_on_marked {x : List Char}
    (hm : hasSub imageMarker2 x = true) (ht : '\x60' ∉ x)
    (hcss : hasSub qtCssText x = false) :
    clean_notes (clean_notes x) = clean_notes x ∧
    clean_notes_for_api (clean_notes_for_api x) = clean_notes_for_api x := by
  have h1 := clean_notes_marker_branch hm ht hcss
  have hm2 : hasSub imageMarker2 (stripWs x) = true :=
    hasSub_stripSet isWsChar (by decide) (by decide) hm
  have ht2 : '\x60' ∉ stripWs x := fun hc => ht (mem_stripSet isWsChar hc)
  have hcss2 : hasSub qtCssText (stripWs x) = false := by
    by_contra hc
    simp only [Bool.not_eq_false] at hc
    have h3 := hasSub_of_hasSub_stripSet isWsChar hc
    rw [hcss] at h3
    cases h3
  have h2 := clean_notes_marker_branch hm2 ht2 hcss2
  constructor
  · rw [h1.1, h2.1]
    exact stripSet_idem isWsChar x
  · rw [h1.2, h2.2]
    exact stripSet_idem isWsChar x

/-- Witness for the amended C1: a concrete marked note. -/
theorem c1_amended_witness :
    hasSub imageMarker2 exMarked = true ∧ ('\x60' ∉ exMarked) ∧
    hasSub qtCssText exMarked = false ∧
    clean_notes (clean_notes exMarked) = clean_notes exMarked ∧
    clean_notes_for_api (clean_notes_for_api exMarked) =
      clean_notes_for_api exMarked := by
  have h := c1_amended_idempotent_on_marked (x := exMarked) (by decide)
    (by decide) (by decide)
  exact ⟨by decide, by decide, by decide, h.1, h.2⟩

/-- In an association list with distinct keys, a key determines its
value. -/
theorem assoc_key_unique {β : Type} {l : List (List Char × β)}
    {k : List Char} {a b : β} (ha : (k, a) ∈ l) (hb : (k, b) ∈ l)
    (hnd : (l.map Prod.fst).Nodup) : a = b := by
  induction l with
  | nil => cases ha
  | cons p rest ih =>
    simp only [List.map_cons, List.nodup_cons] at hnd
    rcases List.mem_cons.mp ha with hpa | hra
    · rcases List.mem_cons.mp hb with hpb | hrb
      · rw [← hpa] at hpb
        exact (Prod.mk.injEq _ _ _ _ ▸ hpb.symm).2
      · exfalso
        apply hnd.1
        have : (k, b).1 ∈ rest.map Prod.fst := List.mem_map_of_mem Prod.fst hrb
        rw [← hpa]
        exact this
    · rcases List.mem_cons.mp hb with hpb | hrb
      · exfalso
        apply hnd.1
        have : (k, a).1 ∈ rest.map Prod.fst := List.mem_map_of_mem Prod.fst hra
        rw [← hpb]
        exact this
      · exact ih hra hrb hnd.2

/-- The hashed keys are exactly the retained version keys. -/
theorem computeVersionHashes_keys
    (valid : List (List Char × List (List Char × TestEntry)))
    (attachedLogs : List (List Char × List Json)) :
    (computeVersionHashes valid attachedLogs).map Prod.fst =
      valid.map Prod.fst := by
  simp [computeVersionHashes, List.map_map, Function.comp]

/-- `setAssoc` changes no other key's binding. -/
theorem setAssoc_lookup_ne {k k' v : List Char}
    (l : List (List Char × List Char)) (h : ¬ k = k') :
    (setAssoc k' v l).lookup k = l.lookup k := by
  induction l with
  | nil =>
    have h1 : (k == k') = false := by simp [h]
    simp [setAssoc, List.lookup, h1]
  | cons p rest ih =>
    by_cases hp : p.1 = k'
    · simp only [setAssoc, if_pos hp]
      have h1 : (k == k') = false := by simp [h]
      have h2 : (k == p.1) = false := by simp [hp ▸ h]
      simp [List.lookup, h1, h2]
    · simp only [setAssoc, if_neg hp]
      by_cases hk : k = p.1
      · simp [List.lookup, hk]
      · have h2 : (k == p.1) = false := by simp [hk]
        simp [List.lookup, h2, ih]

/-- The digest-confirmation fold touches only keys the server marked
`skip`. -/
theorem selectFold_lookup_of_not_skip
    (hcResults : List (List Char × HashCheckVersionResult)) (k : List Char) :
    ∀ (items : List (List Char × List Char))
      (up : List (List Char × List Char)),
      (∀ kv ∈ items, isSkipFor hcResults kv.1 = true → ¬ kv.1 = k) →
      (items.foldl (fun u kv =>
        if isSkipFor hcResults kv.1 then setAssoc kv.1 kv.2 u else u)
          up).lookup k = up.lookup k := by
  intro items
  induction items with
  | nil => intro up _; rfl
  | cons kv rest ih =>
    intro up hcond
    simp only [List.foldl_cons]
    by_cases hskip : isSkipFor hcResults kv.1 = true
    · have hne : ¬ kv.1 = k := hcond kv (by simp) hskip
      rw [if_pos hskip]
      rw [ih (setAssoc kv.1 kv.2 up) (fun q hq => hcond q (by simp [hq]))]
      exact setAssoc_lookup_ne up (fun hc => hne hc.symm)
    · rw [if_neg hskip]
      exact ih up (fun q hq => hcond q (by simp [hq]))

/-- Full characterization of the selection loop. -/
theorem selectLoop_spec (hcResults : List (List Char × HashCheckVersionResult)) :
    ∀ (items : List (List Char × List Char)) (ch sk : List (List Char))
      (up : List (List Char × List Char)),
      selectLoop hcResults items (ch, sk, up) =
        (ch ++ (items.filter (fun kv => !isSkipFor hcResults kv.1)).map Prod.fst,
         sk ++ (items.filter (fun kv => isSkipFor hcResults kv.1)).map Prod.fst,
         items.foldl (fun u kv =>
           if isSkipFor hcResults kv.1 then setAssoc kv.1 kv.2 u else u) up) := by
  intro items
  induction items with
  | nil => intro ch sk up; simp [selectLoop]
  | cons kv rest ih =>
    intro ch sk up
    match hl : hcResults.lookup kv.1 with
    | some r =>
      by_cases hact : r.action = sl "skip"
      · have hskip : isSkipFor hcResults kv.1 = true := by
          simp [isSkipFor, hl, hact]
        simp only [selectLoop, hl, if_pos hact]
        rw [ih (ch) (sk ++ [kv.1]) (setAssoc kv.1 kv.2 up)]
        simp [hskip]
      · have hskip : isSkipFor hcResults kv.1 = false := by
          simp [isSkipFor, hl, hact]
        simp only [selectLoop, hl, if_neg hact]
        rw [ih (ch ++ [kv.1]) sk up]
        simp [hskip]
    | none =>
      have hskip : isSkipFor hcResults kv.1 = false := by
        simp [isSkipFor, hl]
      simp only [selectLoop, hl]
      rw [ih (ch ++ [kv.1]) sk up]
      simp [hskip]

/-- The hashed keys of a pipeline run, branch-independently. -/
theorem pipelineVersionHashes
    (results : List (List Char × List (List Char × TestEntry)))
    (attachedLogs : List (List Char × List Json))
    (uploadHashes : List (List Char × List Char)) (hc : HashCheckRes) :
    (upload_to_panel_core results attachedLogs uploadHashes hc).versionHashes =
      computeVersionHashes (collectValid results) attachedLogs := by
  by_cases hsucc : hc.success <;> simp [upload_to_panel_core, hsucc]

/-- The upload payload is keyed by the selected versions,
branch-independently. -/
theorem pipelineFiltered
    (results : List (List Char × List (List Char × TestEntry)))
    (attachedLogs : List (List Char × List Json))
    (uploadHashes : List (List Char × List Char)) (hc : HashCheckRes) :
    (upload_to_panel_core results attachedLogs uploadHashes hc).filteredResults =
      (upload_to_panel_core results attachedLogs uploadHashes hc).changed.filterMap
        (fun k2 => ((collectValid results).lookup k2).map (fun vr => (k2, vr))) := by
  by_cases hsucc : hc.success <;> simp [upload_to_panel_core, hsucc]

/-- Every selected or skipped version was hashed, branch-independently. -/
theorem pipelineSelectionSub
    (results : List (List Char × List (List Char × TestEntry)))
    (attachedLogs : List (List Char × List Json))
    (uploadHashes : List (List Char × List Char)) (hc : HashCheckRes) :
    (∀ x ∈ (upload_to_panel_core results attachedLogs uploadHashes hc).changed,
      x ∈ (upload_to_panel_core results attachedLogs uploadHashes hc).versionHashes.map Prod.fst) ∧
    (∀ x ∈ (upload_to_panel_core results attachedLogs uploadHashes hc).skipped,
      x ∈ (upload_to_panel_core results attachedLogs uploadHashes hc).versionHashes.map Prod.fst) := by
  by_cases hsucc : hc.success = true
  · simp only [upload_to_panel_core, hsucc, Bool.not_true, if_neg (by simp : ¬ false = true)]
    rw [selectLoop_spec]
    constructor
    · intro x hx
      simp only [List.nil_append] at hx
      exact List.map_subset Prod.fst (List.filter_subset' _) hx
    · intro x hx
      simp only [List.nil_append] at hx
      exact List.map_subset Prod.fst (List.filter_subset' _) hx
  · simp only [upload_to_panel_core, Bool.not_eq_true] at hsucc ⊢
    simp only [hsucc, Bool.not_false, if_pos rfl]
    constructor
    · intro x hx
      exact List.map_subset Prod.fst (List.filter_subset' _) hx
    · intro x hx
      cases hx

/-- Claim C6: a version whose result set has no test with non-empty
trimmed status or notes is excluded from hashing, from the
reconciliation request, from the selection, and from the upload payload
(hence never queued); versions with content are retained. -/
theorem c6_empty_reports_discarded
    (results : List (List Char × List (List Char × TestEntry)))
    (attachedLogs : List (List Char × List Json))
    (uploadHashes : List (List Char × List Char)) (hc : HashCheckRes)
    (k : List Char) (vr : List (List Char × TestEntry))
    (hmem : (k, vr) ∈ results)
    (hempty : ∀ t ∈ vr, stripWs t.2.status = [] ∧ stripWs t.2.notes = [])
    (hnd : (results.map Prod.fst).Nodup) :
    k ∉ (collectValid results).map Prod.fst ∧
    k ∉ (upload_to_panel_core results attachedLogs uploadHashes hc).versionHashes.map Prod.fst ∧
    k ∉ (upload_to_panel_core results attachedLogs uploadHashes hc).changed ∧
    k ∉ (upload_to_panel_core results attachedLogs uploadHashes hc).skipped ∧
    k ∉ (upload_to_panel_core results attachedLogs uploadHashes hc).filteredResults.map Prod.fst ∧
    (∀ k2 vr2, (k2, vr2) ∈ results → versionHasContent vr2 = true →
      k2 ∈ (collectValid results).map Prod.fst) := by
  have hcont : versionHasContent vr = false := by
    rw [versionHasContent, List.any_eq_false]
    intro t ht
    obtain ⟨h1, h2⟩ := hempty t ht
    simp [h1, h2]
  have hA : k ∉ (collectValid results).map Prod.fst := by
    intro hk
    obtain ⟨kv, hkv, hfst⟩ := List.mem_map.mp hk
    obtain ⟨hkv_mem, hkv_p⟩ := List.mem_filter.mp hkv
    obtain ⟨k1, vr1⟩ := kv
    simp only at hfst hkv_p
    subst hfst
    have := assoc_key_unique hkv_mem hmem hnd
    subst this
    rw [hcont] at hkv_p
    cases hkv_p
  have hB : k ∉ (upload_to_panel_core results attachedLogs uploadHashes hc).versionHashes.map Prod.fst := by
    rw [pipelineVersionHashes, computeVersionHashes_keys]
    exact hA
  have hsub := pipelineSelectionSub results attachedLogs uploadHashes hc
  refine ⟨hA, hB, fun hk => hB (hsub.1 k hk), fun hk => hB (hsub.2 k hk), ?_, ?_⟩
  · intro hk
    obtain ⟨pr, hpr, hfst⟩ := List.mem_map.mp hk
    rw [pipelineFiltered] at hpr
    obtain ⟨a, ha, hg⟩ := List.mem_filterMap.mp hpr
    obtain ⟨b, _, hb2⟩ := Option.map_eq_some'.mp hg
    have : pr.1 = a := by rw [← hb2]
    apply hB
    apply hsub.1
    rw [← hfst, this]
    exact ha
  · intro k2 vr2 hm hcont2
    exact List.mem_map.mpr ⟨(k2, vr2), List.mem_filter.mpr ⟨hm, hcont2⟩, rfl⟩

/-- Witness for C6: the empty report `v0` is dropped, the non-empty
`v1` is retained. -/
theorem c6_witness :
    ((sl "v0", [(sl "t1", ({ status := sl "  ", notes := [] } : TestEntry))]) ∈ exResults) ∧
    (sl "v0") ∉ (collectValid exResults).map Prod.fst ∧
    (sl "v0") ∉ (upload_to_panel_core exResults [] [] exHcFail).changed :=
  ⟨by decide,
   (c6_empty_reports_discarded exResults [] [] exHcFail (sl "v0")
      [(sl "t1", { status := sl "  ", notes := [] })] (by decide) (by decide)
      (by decide)).1,
   (c6_empty_reports_discarded exResults [] [] exHcFail (sl "v0")
      [(sl "t1", { status := sl "  ", notes := [] })] (by decide) (by decide)
      (by decide)).2.2.1⟩

/-- Claim C7: when the reconciliation exchange itself fails, the
selection is exactly the versions whose computed digest differs from the
last confirmed digest. -/
theorem c7_failed_reconciliation_fallback
    (results : List (List Char × List (List Char × TestEntry)))
    (attachedLogs : List (List Char × List Json))
    (uploadHashes : List (List Char × List Char)) (hc : HashCheckRes)
    (hf : hc.success = false)
    (hnd : ((upload_to_panel_core results attachedLogs uploadHashes hc).versionHashes.map Prod.fst).Nodup) :
    (upload_to_panel_core results attachedLogs uploadHashes hc).changed =
      locallyChangedOf
        (upload_to_panel_core results attachedLogs uploadHashes hc).versionHashes
        uploadHashes ∧
    (∀ k h,
      (k, h) ∈ (upload_to_panel_core results attachedLogs uploadHashes hc).versionHashes →
      (k ∈ (upload_to_panel_core results attachedLogs uploadHashes hc).changed ↔
        ¬ uploadHashes.lookup k = some h)) := by
  have hch : (upload_to_panel_core results attachedLogs uploadHashes hc).changed =
      locallyChangedOf
        (upload_to_panel_core results attachedLogs uploadHashes hc).versionHashes
        uploadHashes := by
    simp [upload_to_panel_core, hf, pipelineVersionHashes]
  refine ⟨hch, ?_⟩
  intro k h hk
  rw [hch]
  unfold locallyChangedOf
  constructor
  · intro hmem
    obtain ⟨kv, hkv, hfst⟩ := List.mem_map.mp hmem
    obtain ⟨hkv_mem, hkv_p⟩ := List.mem_filter.mp hkv
    obtain ⟨k1, h1⟩ := kv
    simp only at hfst hkv_p
    subst hfst
    have := assoc_key_unique hkv_mem hk hnd
    subst this
    simpa using hkv_p
  · intro hne
    refine List.mem_map.mpr ⟨(k, h), List.mem_filter.mpr ⟨hk, ?_⟩, rfl⟩
    simpa using hne

/-- Witness for C7: a failed exchange over one version with no confirmed
digest selects it. -/
theorem c7_witness :
    exHcFail.success = false ∧
    (upload_to_panel_core exResults [] [] exHcFail).changed =
      locallyChangedOf
        (upload_to_panel_core exResults [] [] exHcFail).versionHashes [] := by
  have hnd : ((upload_to_panel_core exResults [] [] exHcFail).versionHashes.map Prod.fst).Nodup := by
    rw [pipelineVersionHashes, computeVersionHashes_keys]
    decide
  exact ⟨rfl,
    (c7_failed_reconciliation_fallback exResults [] [] exHcFail rfl hnd).1⟩

/-- Claim C8: a hashed version absent from a successful reconciliation
response is selected for upload, not skipped, and its confirmed digest
binding is not updated. -/
theorem c8_absent_version_treated_as_create
    (results : List (List Char × List (List Char × TestEntry)))
    (attachedLogs : List (List Char × List Json))
    (uploadHashes : List (List Char × List Char)) (hc : HashCheckRes)
    (k h : List Char) (hs : hc.success = true)
    (hk : (k, h) ∈ (upload_to_panel_core results attachedLogs uploadHashes hc).versionHashes)
    (habs : hc.results.lookup k = none) :
    k ∈ (upload_to_panel_core results attachedLogs uploadHashes hc).changed ∧
    k ∉ (upload_to_panel_core results attachedLogs uploadHashes hc).skipped ∧
    (upload_to_panel_core results attachedLogs uploadHashes hc).newUploadHashes.lookup k =
      uploadHashes.lookup k := by
  have hskip : isSkipFor hc.results k = false := by
    simp [isSkipFor, habs]
  rw [pipelineVersionHashes] at hk
  have hsel : upload_to_panel_core results attachedLogs uploadHashes hc =
      { versionHashes := computeVersionHashes (collectValid results) attachedLogs,
        locallyChanged := locallyChangedOf
          (computeVersionHashes (collectValid results) attachedLogs) uploadHashes,
        changed := (selectLoop hc.results
          (computeVersionHashes (collectValid results) attachedLogs)
          ([], [], uploadHashes)).1,
        skipped := (selectLoop hc.results
          (computeVersionHashes (collectValid results) attachedLogs)
          ([], [], uploadHashes)).2.1,
        newUploadHashes := (selectLoop hc.results
          (computeVersionHashes (collectValid results) attachedLogs)
          ([], [], uploadHashes)).2.2,
        filteredResults := (selectLoop hc.results
          (computeVersionHashes (collectValid results) attachedLogs)
          ([], [], uploadHashes)).1.filterMap
          (fun k2 => ((collectValid results).lookup k2).map (fun vr => (k2, vr))) } := by
    simp [upload_to_panel_core, hs]
  rw [hsel]
  rw [selectLoop_spec]
  simp only [List.nil_append]
  refine ⟨?_, ?_, ?_⟩
  · exact List.mem_map.mpr ⟨(k, h), List.mem_filter.mpr ⟨hk, by simp [hskip]⟩, rfl⟩
  · intro hmem
    obtain ⟨kv, hkv, hfst⟩ := List.mem_map.mp hmem
    obtain ⟨_, hkv_p⟩ := List.mem_filter.mp hkv
    rw [hfst] at hkv_p
    rw [hskip] at hkv_p
    cases hkv_p
  · apply selectFold_lookup_of_not_skip
    intro kv _ hkvskip hkvk
    rw [hkvk] at hkvskip
    rw [hskip] at hkvskip
    cases hkvskip

/-- Witness for C8: a successful response that omits `v1` selects `v1`
and leaves the confirmed digests untouched. -/
theorem c8_witness :
    exHcOkEmpty.success = true ∧
    exHcOkEmpty.results.lookup (sl "v1") = none ∧
    (sl "v1") ∈ (upload_to_panel_core exResults [] [] exHcOkEmpty).changed ∧
    (upload_to_panel_core exResults [] [] exHcOkEmpty).newUploadHashes.lookup (sl "v1") =
      ([] : List (List Char × List Char)).lookup (sl "v1") := by
  have hk : ((sl "v1"),
      compute_version_hash [(sl "t1", { status := sl "Working", notes := [] })]
        ((([] : List (List Char × List Json)).lookup
          (parse_version_storage_key (sl "v1")).1).getD [])) ∈
      (upload_to_panel_core exResults [] [] exHcOkEmpty).versionHashes := by
    rw [pipelineVersionHashes]
    have hvalid : collectValid exResults =
        [(sl "v1", [(sl "t1", { status := sl "Working", notes := [] })])] := by
      decide
    rw [hvalid]
    simp [computeVersionHashes]
  have := c8_absent_version_treated_as_create exResults [] [] exHcOkEmpty _ _
    rfl hk rfl
  exact ⟨rfl, rfl, this.1, this.2.2⟩

/-- Claim C9: `clear()` resets every read-cache entity to its empty
default while leaving the pending-submission list exactly as it was. -/
theorem c9_clear_preserves_pending_resets_rest (d : CacheData) :
    (cacheClear d).pending_submissions = d.pending_submissions ∧
    (cacheClear d).cache_version = some CACHE_VERSION ∧
    (cacheClear d).last_sync = none ∧
    (cacheClear d).versions = [] ∧
    (cacheClear d).versions_hash = none ∧
    (cacheClear d).tests = [] ∧
    (cacheClear d).tests_hash = none ∧
    (cacheClear d).categories = [] ∧
    (cacheClear d).version_tests = [] ∧
    (cacheClear d).version_skip_tests = [] ∧
    (cacheClear d).conn_is_online = false ∧
    (cacheClear d).conn_last_online = none ∧
    (cacheClear d).conn_last_check = none :=
  ⟨rfl, rfl, rfl, rfl, rfl, rfl, rfl, rfl, rfl, rfl, rfl, rfl, rfl⟩

/-- Head comparison of the byte-wise key order. -/
theorem keyLeB_cons_iff {a b : Char} {as bs : List Char} :
    keyLeB (a :: as) (b :: bs) = true ↔
      (a < b ∨ (a = b ∧ keyLeB as bs = true)) := by
  by_cases h1 : a < b
  · simp [keyLeB, h1]
  · by_cases h2 : b < a
    · have hne : ¬ a = b := fun he => absurd (he ▸ h2) (lt_irrefl a)
      simp [keyLeB, h1, h2, hne]
    · have he : a = b := le_antisymm (le_of_not_lt h2) (le_of_not_lt h1)
      simp [keyLeB, h1, h2, he]

theorem keyLeB_total : ∀ (a b : List Char),
    keyLeB a b = true ∨ keyLeB b a = true := by
  intro a
  induction a with
  | nil => intro b; exact Or.inl rfl
  | cons a as ih =>
    intro b
    cases b with
    | nil => exact Or.inr rfl
    | cons b bs =>
      rcases lt_trichotomy a b with h | h | h
      · exact Or.inl (keyLeB_cons_iff.mpr (Or.inl h))
      · rcases ih bs with h2 | h2
        · exact Or.inl (keyLeB_cons_iff.mpr (Or.inr ⟨h, h2⟩))
        · exact Or.inr (keyLeB_cons_iff.mpr (Or.inr ⟨h.symm, h2⟩))
      · exact Or.inr (keyLeB_cons_iff.mpr (Or.inl h))

theorem keyLeB_trans : ∀ {a b c : List Char}, keyLeB a b = true →
    keyLeB b c = true → keyLeB a c = true := by
  intro a
  induction a with
  | nil => intro b c _ _; rfl
  | cons a as ih =>
    intro b c hab hbc
    cases b with
    | nil => cases hab
    | cons b bs =>
      cases c with
      | nil => cases hbc
      | cons c cs =>
        rcases keyLeB_cons_iff.mp hab with h1 | ⟨h1, h1t⟩ <;>
          rcases keyLeB_cons_iff.mp hbc with h2 | ⟨h2, h2t⟩
        · exact keyLeB_cons_iff.mpr (Or.inl (lt_trans h1 h2))
        · exact keyLeB_cons_iff.mpr (Or.inl (h2 ▸ h1))
        · exact keyLeB_cons_iff.mpr (Or.inl (h1 ▸ h2))
        · exact keyLeB_cons_iff.mpr (Or.inr ⟨h1.trans h2, ih h1t h2t⟩)

theorem keyLeB_antisymm : ∀ {a b : List Char}, keyLeB a b = true →
    keyLeB b a = true → a = b := by
  intro a
  induction a with
  | nil =>
    intro b _ hba
    cases b with
    | nil => rfl
    | cons c cs => cases hba
  | cons a as ih =>
    intro b hab hba
    cases b with
    | nil => cases hab
    | cons b bs =>
      rcases keyLeB_cons_iff.mp hab with h1 | ⟨h1, h1t⟩ <;>
        rcases keyLeB_cons_iff.mp hba with h2 | ⟨h2, h2t⟩
      · exact absurd (lt_trans h1 h2) (lt_irrefl a)
      · exact absurd (h2 ▸ h1) (lt_irrefl a)
      · exact absurd (h1 ▸ h2) (lt_irrefl b)
      · rw [h1, ih h1t h2t]

theorem insertKV_perm (p : List Char × Json) (l : List (List Char × Json)) :
    (insertKV p l).Perm (p :: l) := by
  induction l with
  | nil => exact List.Perm.refl _
  | cons q rest ih =>
    by_cases h : keyLeB p.1 q.1 = true
    · rw [insertKV, if_pos h]
    · rw [insertKV, if_neg h]
      exact (ih.cons q).trans (List.Perm.swap p q rest)

theorem sortKVs_perm (l : List (List Char × Json)) : (sortKVs l).Perm l := by
  induction l with
  | nil => exact List.Perm.refl _
  | cons p rest ih =>
    rw [sortKVs]
    exact (insertKV_perm p (sortKVs rest)).trans (ih.cons p)

theorem mem_insertKV {x p : List Char × Json} {l : List (List Char × Json)} :
    x ∈ insertKV p l ↔ x = p ∨ x ∈ l := by
  rw [(insertKV_perm p l).mem_iff]
  simp

theorem insertKV_pairwise (p : List Char × Json)
    {l : List (List Char × Json)} (hl : l.Pairwise KVle) :
    (insertKV p l).Pairwise KVle := by
  induction l with
  | nil => simp [insertKV, List.pairwise_cons]
  | cons q rest ih =>
    rcases List.pairwise_cons.mp hl with ⟨hq, hrest⟩
    by_cases h : keyLeB p.1 q.1 = true
    · rw [insertKV, if_pos h]
      refine List.pairwise_cons.mpr ⟨?_, hl⟩
      intro x hx
      rcases List.mem_cons.mp hx with he | hx2
      · rw [he]; exact h
      · exact keyLeB_trans h (hq x hx2)
    · rw [insertKV, if_neg h]
      refine List.pairwise_cons.mpr ⟨?_, ih hrest⟩
      intro x hx
      rcases mem_insertKV.mp hx with he | hx2
      · rw [he]
        rcases keyLeB_total p.1 q.1 with h1 | h1
        · exact absurd h1 h
        · exact h1
      · exact hq x hx2

theorem sortKVs_pairwise (l : List (List Char × Json)) :
    (sortKVs l).Pairwise KVle := by
  induction l with
  | nil => exact List.Pairwise.nil
  | cons p rest ih =>
    rw [sortKVs]
    exact insertKV_pairwise p ih

/-- Two sorted association lists that are permutations of each other
with duplicate-free keys coincide. -/
theorem sorted_nodup_eq : ∀ (l1 l2 : List (List Char × Json)),
    l1.Perm l2 → l1.Pairwise KVle → l2.Pairwise KVle →
    (l1.map Prod.fst).Nodup → l1 = l2 := by
  intro l1
  induction l1 with
  | nil =>
    intro l2 hp _ _ _
    exact (List.Perm.eq_nil hp.symm).symm
  | cons a t1 ih =>
    intro l2 hp h1 h2 hnd
    cases l2 with
    | nil => exact absurd (List.Perm.eq_nil hp) (by simp)
    | cons b t2 =>
      rcases List.pairwise_cons.mp h1 with ⟨ha, h1t⟩
      rcases List.pairwise_cons.mp h2 with ⟨hb, h2t⟩
      by_cases hab : a = b
      · subst hab
        have hpt : t1.Perm t2 := hp.cons_inv
        have hndt : (t1.map Prod.fst).Nodup := by
          simp only [List.map_cons, List.nodup_cons] at hnd
          exact hnd.2
        rw [ih t2 hpt h1t h2t hndt]
      · exfalso
        have hal2 : a ∈ b :: t2 := hp.mem_iff.mp (by simp)
        have hbl1 : b ∈ a :: t1 := hp.mem_iff.mpr (by simp)
        have hat2 : a ∈ t2 := by
          rcases List.mem_cons.mp hal2 with h | h
          · exact absurd h hab
          · exact h
        have hbt1 : b ∈ t1 := by
          rcases List.mem_cons.mp hbl1 with h | h
          · exact absurd h.symm hab
          · exact h
        have hkey : a.1 = b.1 :=
          keyLeB_antisymm (ha b hbt1) (hb a hat2)
        simp only [List.map_cons, List.nodup_cons] at hnd
        exact hnd.1 (hkey ▸ List.mem_map_of_mem Prod.fst hbt1)

/-- Sorting is invariant under permutation when keys are unique: the
heart of hash determinism. -/
theorem sortKVs_eq_of_perm {l1 l2 : List (List Char × Json)}
    (hp : l1.Perm l2) (hnd : (l1.map Prod.fst).Nodup) :
    sortKVs l1 = sortKVs l2 := by
  apply sorted_nodup_eq
  · exact (sortKVs_perm l1).trans (hp.trans (sortKVs_perm l2).symm)
  · exact sortKVs_pairwise l1
  · exact sortKVs_pairwise l2
  · exact (List.Perm.nodup_iff ((sortKVs_perm l1).map Prod.fst)).mpr hnd

theorem jsonSize_pos (j : Json) : 1 ≤ jsonSize j := by
  cases j <;> simp [jsonSize]

theorem jsonSizeList_bound {x : Json} {xs : List Json} (h : x ∈ xs) :
    jsonSize x ≤ jsonSizeList xs := by
  induction xs with
  | nil => cases h
  | cons y rest ih =>
    rcases List.mem_cons.mp h with he | hr
    · subst he
      simp [jsonSizeList]
      omega
    · have := ih hr
      simp [jsonSizeList]
      omega

theorem jsonSizeKVs_bound {kv : List Char × Json}
    {kvs : List (List Char × Json)} (h : kv ∈ kvs) :
    jsonSize kv.2 ≤ jsonSizeKVs kvs := by
  induction kvs with
  | nil => cases h
  | cons q rest ih =>
    rcases List.mem_cons.mp h with he | hr
    · subst he
      simp [jsonSizeKVs]
      omega
    · have := ih hr
      simp [jsonSizeKVs]
      omega

/-- The serializer's output does not depend on the fuel, once it is
sufficient. -/
theorem jsonDumpsF_congr : ∀ (f1 : Nat) (j : Json) (f2 : Nat),
    jsonSize j ≤ f1 → jsonSize j ≤ f2 → jsonDumpsF f1 j = jsonDumpsF f2 j := by
  intro f1
  induction f1 with
  | zero =>
    intro j f2 h1 _
    have := jsonSize_pos j
    omega
  | succ f1 ih =>
    intro j f2 h1 h2
    cases f2 with
    | zero =>
      have := jsonSize_pos j
      omega
    | succ f2 =>
      cases j with
      | null => rfl
      | bool b => cases b <;> rfl
      | num i => rfl
      | str s => rfl
      | arr xs =>
        simp only [jsonSize] at h1 h2
        have hmap : xs.map (jsonDumpsF f1) = xs.map (jsonDumpsF f2) := by
          apply List.map_congr_left
          intro x hx
          have hb := jsonSizeList_bound hx
          exact ih x f2 (by omega) (by omega)
        simp only [jsonDumpsF, hmap]
      | obj kvs =>
        simp only [jsonSize] at h1 h2
        have hmap : (sortKVs kvs).map
            (fun kv => jsonStringLit kv.1 ++ ':' :: jsonDumpsF f1 kv.2) =
            (sortKVs kvs).map
            (fun kv => jsonStringLit kv.1 ++ ':' :: jsonDumpsF f2 kv.2) := by
          apply List.map_congr_left
          intro kv hkv
          have hmem : kv ∈ kvs := (sortKVs_perm kvs).mem_iff.mp hkv
          have hb := jsonSizeKVs_bound hmem
          rw [ih kv.2 f2 (by omega) (by omega)]
        simp only [jsonDumpsF, hmap]

/-- With any sufficient common fuel, objects with equal sorted entry
lists serialize identically. -/
theorem jsonDumpsF_obj_sort {f : Nat} {l1 l2 : List (List Char × Json)}
    (hs : sortKVs l1 = sortKVs l2) (hf : 1 ≤ f) :
    jsonDumpsF f (.obj l1) = jsonDumpsF f (.obj l2) := by
  cases f with
  | zero => omega
  | succ f => simp only [jsonDumpsF, hs]

theorem jsonDumps_obj_congr {l1 l2 : List (List Char × Json)}
    (hs : sortKVs l1 = sortKVs l2) :
    jsonDumps (.obj l1) = jsonDumps (.obj l2) := by
  unfold jsonDumps
  have e1 := jsonDumpsF_congr (jsonSize (Json.obj l1)) (Json.obj l1)
    (max (jsonSize (Json.obj l1)) (jsonSize (Json.obj l2))) (le_refl _)
    (le_max_left _ _)
  have e2 := jsonDumpsF_congr (jsonSize (Json.obj l2)) (Json.obj l2)
    (max (jsonSize (Json.obj l1)) (jsonSize (Json.obj l2))) (le_refl _)
    (le_max_right _ _)
  rw [e1, e2]
  apply jsonDumpsF_obj_sort hs
  have := jsonSize_pos (Json.obj l1)
  have := le_max_left (jsonSize (Json.obj l1)) (jsonSize (Json.obj l2))
  omega

/-- The two-entry payload object in its construction order sorts to
`logs` before `results`. -/
theorem sortKVs_results_logs (X Y : Json) :
    sortKVs [(sl "results", X), (sl "logs", Y)] =
      [(sl "logs", Y), (sl "results", X)] := by
  have h : keyLeB (sl "results") (sl "logs") = false := by decide
  simp [sortKVs, insertKV, h]

theorem sortKVs_logs_results (X Y : Json) :
    sortKVs [(sl "logs", Y), (sl "results", X)] =
      [(sl "logs", Y), (sl "results", X)] := by
  have h : keyLeB (sl "logs") (sl "results") = true := by decide
  simp [sortKVs, insertKV, h]

/-- Serialization of the hash payload depends on the `results` object
only through its sorted entry list. -/
theorem jsonDumps_payload_congr {c1 c2 : List (List Char × Json)} (L : Json)
    (hs : sortKVs c1 = sortKVs c2) :
    jsonDumps (.obj [(sl "results", .obj c1), (sl "logs", L)]) =
      jsonDumps (.obj [(sl "results", .obj c2), (sl "logs", L)]) := by
  unfold jsonDumps
  have hsz1 : 2 ≤ jsonSize (Json.obj [(sl "results", Json.obj c1), (sl "logs", L)]) := by
    have hp := jsonSize_pos (Json.obj c1)
    simp [jsonSize, jsonSizeKVs]
    omega
  have hsz2 : 2 ≤ jsonSize (Json.obj [(sl "results", Json.obj c2), (sl "logs", L)]) := by
    have hp := jsonSize_pos (Json.obj c2)
    simp [jsonSize, jsonSizeKVs]
    omega
  have hc1 : jsonSize (Json.obj c1) + 1 ≤
      jsonSize (Json.obj [(sl "results", Json.obj c1), (sl "logs", L)]) := by
    simp [jsonSize, jsonSizeKVs]
    omega
  have hc2 : jsonSize (Json.obj c2) + 1 ≤
      jsonSize (Json.obj [(sl "results", Json.obj c2), (sl "logs", L)]) := by
    simp [jsonSize, jsonSizeKVs]
    omega
  have hL1 : jsonSize L + 1 ≤
      jsonSize (Json.obj [(sl "results", Json.obj c1), (sl "logs", L)]) := by
    simp [jsonSize, jsonSizeKVs]
    omega
  have hL2 : jsonSize L + 1 ≤
      jsonSize (Json.obj [(sl "results", Json.obj c2), (sl "logs", L)]) := by
    simp [jsonSize, jsonSizeKVs]
    omega
  obtain ⟨f, hf⟩ : ∃ f,
      max (jsonSize (Json.obj [(sl "results", Json.obj c1), (sl "logs", L)]))
        (jsonSize (Json.obj [(sl "results", Json.obj c2), (sl "logs", L)])) =
        f + 1 := by
    refine ⟨max (jsonSize (Json.obj [(sl "results", Json.obj c1), (sl "logs", L)]))
      (jsonSize (Json.obj [(sl "results", Json.obj c2), (sl "logs", L)])) - 1, ?_⟩
    have := le_max_left
      (jsonSize (Json.obj [(sl "results", Json.obj c1), (sl "logs", L)]))
      (jsonSize (Json.obj [(sl "results", Json.obj c2), (sl "logs", L)]))
    omega
  have e1 := jsonDumpsF_congr
    (jsonSize (Json.obj [(sl "results", Json.obj c1), (sl "logs", L)]))
    (Json.obj [(sl "results", Json.obj c1), (sl "logs", L)]) (f + 1)
    (le_refl _) (by rw [← hf]; exact le_max_left _ _)
  have e2 := jsonDumpsF_congr
    (jsonSize (Json.obj [(sl "results", Json.obj c2), (sl "logs", L)]))
    (Json.obj [(sl "results", Json.obj c2), (sl "logs", L)]) (f + 1)
    (le_refl _) (by rw [← hf]; exact le_max_right _ _)
  rw [e1, e2]
  have hfc1 : jsonSize (Json.obj c1) ≤ f := by
    have h3 := le_max_left
      (jsonSize (Json.obj [(sl "results", Json.obj c1), (sl "logs", L)]))
      (jsonSize (Json.obj [(sl "results", Json.obj c2), (sl "logs", L)]))
    omega
  have hfc2 : jsonSize (Json.obj c2) ≤ f := by
    have h3 := le_max_right
      (jsonSize (Json.obj [(sl "results", Json.obj c1), (sl "logs", L)]))
      (jsonSize (Json.obj [(sl "results", Json.obj c2), (sl "logs", L)]))
    omega
  have hinner : jsonDumpsF f (Json.obj c1) = jsonDumpsF f (Json.obj c2) := by
    have hp := jsonSize_pos (Json.obj c1)
    exact jsonDumpsF_obj_sort hs (by omega)
  simp only [jsonDumpsF, sortKVs_results_logs, List.map_cons, List.map_nil,
    hinner]

/-- The spec-side canonicalization is the pointwise map the
implementation performs. -/
theorem specCanonicalResults_eq (r : List (List Char × TestEntry)) :
    specCanonicalResults r = r.map (fun kv =>
      (kv.1, Json.obj [(sl "status", .str kv.2.status),
                       (sl "notes", .str (clean_notes kv.2.notes))])) := by
  induction r with
  | nil => rfl
  | cons kv rest ih =>
    obtain ⟨k, t⟩ := kv
    simp [specCanonicalResults, ih]

/-- Claim C2: `compute_version_hash` canonicalizes each note, serializes
the payload with sorted keys and tight separators, hashes the UTF-8
bytes with SHA-256 — and is therefore a function of the result map, not
of the order its entries were inserted in. -/
theorem c2_version_hash_spec_and_deterministic :
    (∀ (r : List (List Char × TestEntry)) (logs : List Json),
      compute_version_hash r logs = specVersionHash r logs) ∧
    (∀ (r1 r2 : List (List Char × TestEntry)) (logs : List Json),
      r1.Perm r2 → (r1.map Prod.fst).Nodup →
      compute_version_hash r1 logs = compute_version_hash r2 logs) := by
  constructor
  · intro r logs
    unfold compute_version_hash specVersionHash
    rw [specCanonicalResults_eq]
    apply congrArg sha256Hex
    apply congrArg utf8Encode
    apply jsonDumps_obj_congr
    rw [sortKVs_results_logs, sortKVs_logs_results]
  · intro r1 r2 logs hperm hnd
    unfold compute_version_hash
    apply congrArg sha256Hex
    apply congrArg utf8Encode
    apply jsonDumps_payload_congr
    apply sortKVs_eq_of_perm
    · exact hperm.map _
    · have hkeys : (r1.map (fun kv =>
          (kv.1, Json.obj [(sl "status", Json.str kv.2.status),
            (sl "notes", Json.str (clean_notes kv.2.notes))]))).map Prod.fst =
          r1.map Prod.fst := by
        rw [List.map_map]
        rfl
      rw [hkeys]
      exact hnd

/-- Witness for C2: the same two-version result map inserted in the two
possible orders hashes identically. -/
theorem c2_witness :
    c2R1.Perm c2R2 ∧ (c2R1.map Prod.fst).Nodup ∧
    compute_version_hash c2R1 [] = compute_version_hash c2R2 [] :=
  ⟨by decide, by decide,
   c2_version_hash_spec_and_deterministic.2 c2R1 c2R2 [] (by decide)
     (by decide)⟩

/-- Claim C10: constructing a `TestPanelClient` raises `ValueError`
exactly when `api_url` is empty, `api_key` is empty, or `api_key` does
not start with `sk_`. -/
theorem c10_client_init_raises_iff_invalid (c : Config) :
    (∃ msg, clientInit c = .error msg) ↔
      (c.api_url = [] ∨ c.api_key = [] ∨
        ¬ (sl "sk_").isPrefixOf c.api_key = true) := by
  cases h1 : c.api_url.isEmpty <;> cases h2 : c.api_key.isEmpty <;>
    cases h3 : (sl "sk_").isPrefixOf c.api_key <;>
      simp_all [clientInit, configValidate, List.isEmpty_iff]

end StmTool
